import Mathlib

/-!
Verification development for the FatherTime time-tracking store
(`src/fathertime/database.py` and `src/fathertime/timer_manager.py`).

Strings are modelled as `List Char`; machine integers as `Nat`/`Int`
(Python ints are unbounded, so no wraparound is modelled); Python dicts
as association lists with insert-at-end / update-in-place semantics,
matching dict insertion order; methods that raise exceptions return an
`Except` result paired with the post-call state, because in Python the
object mutations made before a raise persist.
-/

namespace FatherTime

deriving instance DecidableEq for Except

/-- Python whitespace (`\s` over the characters this app handles and
`str.strip` / `re.sub` whitespace): space, tab, newline, carriage
return, vertical tab, form feed. -/
def isPySpace (c : Char) : Bool :=
  c == ' ' || c == '\t' || c == '\n' || c == '\r' ||
  c == Char.ofNat 11 || c == Char.ofNat 12

/-- ASCII alphanumeric, the `[a-zA-Z0-9]` part of the allow-list. -/
def isAsciiAlphaNum (c : Char) : Bool :=
  (97 ≤ c.toNat && c.toNat ≤ 122) || (65 ≤ c.toNat && c.toNat ≤ 90) ||
  (48 ≤ c.toNat && c.toNat ≤ 57)

/-- Character class of `^[a-zA-Z0-9\s\-_().,!?:]+$` in
`Database._sanitize_timer_name` (database.py line 104). -/
def isAllowedChar (c : Char) : Bool :=
  isAsciiAlphaNum c || isPySpace c ||
  c == '-' || c == '_' || c == '(' || c == ')' || c == '.' || c == ',' ||
  c == '!' || c == '?' || c == ':'

/-- ASCII lowering, as `re.IGNORECASE` folds the characters involved here. -/
def lowerChar (c : Char) : Char :=
  if 65 ≤ c.toNat ∧ c.toNat ≤ 90 then Char.ofNat (c.toNat + 32) else c

/-- `\w` word characters: ASCII alphanumeric or underscore. -/
def isWordChar (c : Char) : Bool :=
  isAsciiAlphaNum c || c == '_'

/-- Python `str.strip()`: drop leading and trailing whitespace. -/
def pyStrip (l : List Char) : List Char :=
  ((l.dropWhile isPySpace).reverse.dropWhile isPySpace).reverse

/-- `re.sub(r'\s+', ' ', name)` (database.py line 112): replace every
maximal whitespace run by a single space.  The flag records whether the
previous character belonged to a whitespace run. -/
def collapseWS : Bool → List Char → List Char
  | _, [] => []
  | prev, c :: cs =>
    if isPySpace c then
      if prev then collapseWS true cs else ' ' :: collapseWS true cs
    else c :: collapseWS false cs

/-- Case-insensitive match of a (pre-lowered) pattern against the start
of a list. -/
def matchesAtCI : List Char → List Char → Bool
  | [], _ => true
  | _ :: _, [] => false
  | p :: ps, c :: cs => (lowerChar c == p) && matchesAtCI ps cs

/-- `re.search` of a literal (pre-lowered) pattern, case-insensitively. -/
def containsCI (pat : List Char) : List Char → Bool
  | [] => pat.isEmpty
  | c :: cs => matchesAtCI pat (c :: cs) || containsCI pat cs

/-- After `on\w+`: the `\s*=` remainder.  Greedy `\s*` with backtracking
is equivalent to skipping the maximal whitespace run, since a shorter
run leaves a whitespace character where `=` is required. -/
def spacesThenEq : List Char → Bool
  | [] => false
  | c :: cs => if isPySpace c then spacesThenEq cs else c == '='

/-- After `on` and one word character: the rest of `\w+\s*=`.  Greedy
`\w+` with backtracking is equivalent to consuming the maximal word-char
run, since stopping earlier leaves a word character where `\s*=` must
start and word characters are neither whitespace nor `=`. -/
def wordTail : List Char → Bool
  | [] => false
  | c :: cs => if isWordChar c then wordTail cs else spacesThenEq (c :: cs)

/-- Attempt to match `on\w+\s*=` (case-insensitive) at this position. -/
def handlerAt : List Char → Bool
  | c1 :: c2 :: c3 :: rest =>
    lowerChar c1 == 'o' && lowerChar c2 == 'n' && isWordChar c3 && wordTail rest
  | _ => false

/-- `re.search(r'on\w+\s*=', name, re.IGNORECASE)`. -/
def searchHandler : List Char → Bool
  | [] => false
  | c :: cs => handlerAt (c :: cs) || searchHandler cs

/-- Attempt to match `<\s*word` (word pre-lowered, case-insensitive) at
this position; `\s*` greedy is equivalent to skipping the maximal
whitespace run because the words start with a non-whitespace letter. -/
def ltThenCI (word : List Char) : List Char → Bool
  | [] => false
  | c :: cs => c == '<' && matchesAtCI word (cs.dropWhile isPySpace)

/-- `re.search` of `<\s*word` case-insensitively. -/
def searchLtWord (word : List Char) : List Char → Bool
  | [] => false
  | c :: cs => ltThenCI word (c :: cs) || searchLtWord word cs

/-- The `dangerous_patterns` loop of `_sanitize_timer_name`
(database.py lines 115-128): `<script`, `javascript:`, `on\w+\s*=`,
`<\s*iframe`, `<\s*object`, `<\s*embed`, each case-insensitive.  All six
raises carry the same message, so one combined test is faithful. -/
def hasDangerous (l : List Char) : Bool :=
  containsCI "<script".toList l ||
  containsCI "javascript:".toList l ||
  searchHandler l ||
  searchLtWord "iframe".toList l ||
  searchLtWord "object".toList l ||
  searchLtWord "embed".toList l

/-- `Database._sanitize_timer_name` (database.py lines 74-130).  The
Python code reassigns `name = name.strip()` and later
`name = re.sub(...)`; here every later check is written against the
stripped (resp. collapsed) value directly, which is the same dataflow.
The `isinstance` check is not representable (inputs are strings by
type); `if not name` on a string is the emptiness test. -/
def sanitizeTimerName (name : List Char) : Except String (List Char) :=
  if name.isEmpty then .error "Timer name must be a non-empty string"
  else if (pyStrip name).isEmpty then
    .error "Timer name cannot be empty or only whitespace"
  else if (pyStrip name).length > 100 then .error "Timer name too long"
  else if (pyStrip name).length < 1 then .error "Timer name too short"
  else if !((pyStrip name).all isAllowedChar) then
    .error "Timer name contains invalid characters"
  else if hasDangerous (collapseWS false (pyStrip name)) then
    .error "Timer name contains potentially dangerous content"
  else .ok (collapseWS false (pyStrip name))

/-- `Database._sanitize_project_name` (database.py lines 132-184): same
pipeline as timer names, without the dead `len < 1` check. -/
def sanitizeProjectName (name : List Char) : Except String (List Char) :=
  if name.isEmpty then .error "Project name must be a non-empty string"
  else if (pyStrip name).isEmpty then
    .error "Project name cannot be empty or only whitespace"
  else if (pyStrip name).length > 100 then .error "Project name too long"
  else if !((pyStrip name).all isAllowedChar) then
    .error "Project name contains invalid characters"
  else if hasDangerous (collapseWS false (pyStrip name)) then
    .error "Project name contains potentially dangerous content"
  else .ok (collapseWS false (pyStrip name))

/-- All whitespace is a single `' '` and no two whitespace characters
are adjacent (the flag says whether the previous character was part of
a whitespace run). -/
def wellSpaced : Bool → List Char → Bool
  | _, [] => true
  | prev, c :: cs =>
    if isPySpace c then !prev && (c == ' ') && wellSpaced true cs
    else wellSpaced false cs

/-- No run of more than one whitespace character. -/
def noDoubleWS : List Char → Bool
  | c1 :: c2 :: cs => !(isPySpace c1 && isPySpace c2) && noDoubleWS (c2 :: cs)
  | _ => true

/-- The head, if any, is not whitespace. -/
def headOkWS : List Char → Bool
  | [] => true
  | c :: _ => !isPySpace c

/-- The last character, if any, is not whitespace. -/
def lastOkWS : List Char → Bool
  | [] => true
  | [c] => !isPySpace c
  | _ :: c2 :: cs => lastOkWS (c2 :: cs)


/-! ## Data model of the persistent store (`Database`) -/

/-- One record of the per-date timer-state table
(`get_daily_timer_state`, database.py lines 654-662).  The freshly
created record has no `initial_countdown_seconds` key; `none` stands
for the absent key (read back with default 0). -/
structure DailyState where
  elapsed_seconds : Nat
  countdown_seconds : Nat
  is_running : Bool
  last_started : Option Nat
  initial_countdown_seconds : Option Nat
deriving DecidableEq

/-- The record `update_daily_timer_state` creates when the key is
absent (database.py lines 681-688). -/
def defaultDailyState : DailyState := ⟨0, 0, false, none, none⟩

/-- A partial update dict passed to `update_daily_timer_state`; `none`
means the key is absent from the update. -/
structure StateUpdate where
  elapsed_seconds : Option Nat
  countdown_seconds : Option Nat
  is_running : Option Bool
  last_started : Option (Option Nat)
  initial_countdown_seconds : Option Nat
deriving DecidableEq

/-- Python `dict.update`: fields present in the update overwrite. -/
def applyUpdate (u : StateUpdate) (s : DailyState) : DailyState :=
  ⟨u.elapsed_seconds.getD s.elapsed_seconds,
   u.countdown_seconds.getD s.countdown_seconds,
   u.is_running.getD s.is_running,
   u.last_started.getD s.last_started,
   match u.initial_countdown_seconds with
   | none => s.initial_countdown_seconds
   | some v => some v⟩

/-- The empty update: used to model the pure key-creation performed by
`get_daily_timer_state`. -/
def emptyUpdate : StateUpdate := ⟨none, none, none, none, none⟩

/-- A catalog entry as built by `add_timer_to_date` (database.py lines
738-748); `type` keeps the raw string because the code compares it with
string literals.  `date_created` is `none` for entries made by the
older `add_timer`, which does not set that key. -/
structure CatalogTimer where
  id : Nat
  name : List Char
  type : String
  elapsed_seconds : Nat
  countdown_seconds : Nat
  is_running : Bool
  created_at : Nat
  last_started : Option Nat
  date_created : Option String
deriving DecidableEq

/-- A session record (`start_session`, database.py lines 827-836);
timestamps are abstract integer seconds. -/
structure Session where
  id : Nat
  timer_id : Nat
  project_name : List Char
  date : String
  start_time : Nat
  end_time : Option Nat
  duration_seconds : Int
  is_active : Bool
deriving DecidableEq

/-- The in-memory state of a `Database` object: the four JSON-backed
collections plus the display-order table.  File I/O, batching flags and
file permissions are outside the model; `save_*` calls are no-ops on
this state. -/
structure DB where
  timers : List CatalogTimer
  next_id : Nat
  sessions : List Session
  daily_states : List (String × List (Nat × DailyState))
  daily_timers : List (String × List CatalogTimer)
  display_orders : List (String × List Nat)
deriving DecidableEq

/-- A freshly initialized store with the default empty structures. -/
def emptyDB : DB := ⟨[], 1, [], [], [], []⟩

/-- Dict lookup on a string-keyed association list (first occurrence,
as dict keys are unique). -/
def alookup {β : Type} : List (String × β) → String → Option β
  | [], _ => none
  | (k, v) :: rest, k2 => if k = k2 then some v else alookup rest k2

/-- Dict lookup on a nat-keyed association list. -/
def nlookup {β : Type} : List (Nat × β) → Nat → Option β
  | [], _ => none
  | (k, v) :: rest, k2 => if k = k2 then some v else nlookup rest k2

/-- Dict assignment `d[k] = v`: overwrite in place, or append a new key
at the end (Python dicts preserve insertion order). -/
def aset {β : Type} : List (String × β) → String → β → List (String × β)
  | [], d, v => [(d, v)]
  | (k, x) :: rest, d, v =>
    if k = d then (k, v) :: rest else (k, x) :: aset rest d v

/-- Dict assignment for nat keys. -/
def nset {β : Type} : List (Nat × β) → Nat → β → List (Nat × β)
  | [], k, v => [(k, v)]
  | (k2, x) :: rest, k, v =>
    if k2 = k then (k2, v) :: rest else (k2, x) :: nset rest k v

/-- Dict deletion `del d[k]` for nat keys. -/
def ndel {β : Type} : List (Nat × β) → Nat → List (Nat × β)
  | [], _ => []
  | (k2, x) :: rest, k => if k2 = k then rest else (k2, x) :: ndel rest k

/-- Inner step of `update_daily_timer_state`: ensure the timer's record
exists (creating `defaultDailyState`) and merge the update into it. -/
def updInner : List (Nat × DailyState) → Nat → StateUpdate → List (Nat × DailyState)
  | [], tid, u => [(tid, applyUpdate u defaultDailyState)]
  | (k, s) :: rest, tid, u =>
    if k = tid then (k, applyUpdate u s) :: rest
    else (k, s) :: updInner rest tid u

/-- Outer step of `update_daily_timer_state`: ensure the date's inner
dict exists and update the timer's record inside it. -/
def updOuter :
    List (String × List (Nat × DailyState)) → String → Nat → StateUpdate →
      List (String × List (Nat × DailyState))
  | [], d, tid, u => [(d, updInner [] tid u)]
  | (k, inner) :: rest, d, tid, u =>
    if k = d then (k, updInner inner tid u) :: rest
    else (k, inner) :: updOuter rest d tid u

/-- `Database.update_daily_timer_state` (database.py lines 667-691). -/
def updateDailyTimerState (db : DB) (tid : Nat) (d : String) (u : StateUpdate) : DB :=
  { db with daily_states := updOuter db.daily_states d tid u }

/-- Read a record of a daily-state table. -/
def lookupTable (t : List (String × List (Nat × DailyState))) (d : String)
    (tid : Nat) : Option DailyState :=
  match alookup t d with
  | none => none
  | some inner => nlookup inner tid

/-- Read a daily-state record without side effects. -/
def lookupState (db : DB) (d : String) (tid : Nat) : Option DailyState :=
  lookupTable db.daily_states d tid

/-- `Database.get_daily_timer_state` (database.py lines 638-665):
lazily create the default record, then return it with the (possibly
extended) store.  Creation is expressed as an update with the empty
dict, which leaves an existing record unchanged. -/
def getDailyTimerState (db : DB) (tid : Nat) (d : String) : DailyState × DB :=
  let db2 : DB := { db with daily_states := updOuter db.daily_states d tid emptyUpdate }
  ((lookupState db2 d tid).getD defaultDailyState, db2)

/-- `Database.get_timers_for_date` (database.py lines 693-711): exactly
the date's own membership list, empty when the date has none; no
fallback to other dates. -/
def getTimersForDate (db : DB) (d : String) : List CatalogTimer :=
  match alookup db.daily_timers d with
  | some ts => ts
  | none => []

/-- `Database.get_timer` (database.py lines 619-636), first catalog
entry with the id.  The `timer_id <= 0` ValidationError guard cannot
fire on the ids the tick loop passes (catalog-assigned ids start at 1),
so it is not part of the result type. -/
def getTimer (timers : List CatalogTimer) (tid : Nat) : Option CatalogTimer :=
  match timers with
  | [] => none
  | t :: rest => if t.id = tid then some t else getTimer rest tid

/-- `Database.add_timer_to_date` (database.py lines 718-774).  Order of
effects mirrors the source: sanitize; validate the type; take and bump
`next_id`; append to the catalog; ensure the date's membership list
exists; reject a duplicate name within that list (rolling back catalog
append and id bump); otherwise append to the membership list.  The
membership list is read from the pre-call store: the catalog append
before the read does not touch `daily_timers`, so the read is the same.
On the rejection path the date key necessarily already existed (an
empty fresh list has no duplicates), so the membership table is
unchanged there. -/
def addTimerToDate (db : DB) (d : String) (name : List Char) (ttype : String)
    (now : Nat) : Except String Nat × DB :=
  match sanitizeTimerName name with
  | .error e => (.error e, db)
  | .ok sname =>
    if ttype ≠ "stopwatch" ∧ ttype ≠ "countdown" then
      (.error "Timer type must be stopwatch or countdown", db)
    else
      let timer_id := db.next_id
      let timer_data : CatalogTimer :=
        ⟨timer_id, sname, ttype, 0, 0, false, now, none, some d⟩
      let db2 : DB :=
        { db with next_id := db.next_id + 1, timers := db.timers ++ [timer_data] }
      let members := getTimersForDate db d
      if sname ∈ members.map CatalogTimer.name then
        (.error "Timer with that name already exists on this date",
         { db2 with timers := db2.timers.filter (fun t => t.id ≠ timer_id),
                    next_id := db2.next_id - 1 })
      else
        (.ok timer_id,
         { db2 with daily_timers := aset db2.daily_timers d (members ++ [timer_data]) })

/-- The id generation of `start_session` (database.py lines 823-825):
`max(existing ids) + 1`, or 1 when the log is empty. -/
def nextSessionId (sessions : List Session) : Nat :=
  if (sessions.map Session.id).isEmpty then 1
  else (sessions.map Session.id).foldl max 0 + 1

/-- `Database.start_session` (database.py lines 802-843). -/
def startSession (db : DB) (tid : Int) (project : List Char) (now : Nat)
    (today : String) : Except String Nat × DB :=
  if tid ≤ 0 then (.error "Timer ID must be a positive integer", db)
  else
    match sanitizeProjectName project with
    | .error e => (.error e, db)
    | .ok pname =>
      let next_id := nextSessionId db.sessions
      let session : Session := ⟨next_id, tid.toNat, pname, today, now, none, 0, true⟩
      (.ok next_id, { db with sessions := db.sessions ++ [session] })

/-- The loop body of `end_session`: close the first session whose id
matches and which is still active; later sessions are not scanned. -/
def endSessionList (sid : Int) (now : Nat) : List Session → Int × List Session
  | [] => (0, [])
  | s :: rest =>
    if (s.id : Int) = sid ∧ s.is_active then
      (((now : Int) - (s.start_time : Int)),
       ({ s with end_time := some now, is_active := false,
                 duration_seconds := (now : Int) - (s.start_time : Int) }) :: rest)
    else
      let r := endSessionList sid now rest
      (r.1, s :: r.2)

/-- `Database.end_session` (database.py lines 845-880).  Timestamps are
abstract integer seconds, so the `fromisoformat` parse error cannot
occur; duration is `end - start`.  A non-positive id raises the
ValidationError from the guard; an unmatched positive id returns 0. -/
def endSession (db : DB) (sid : Int) (now : Nat) : Except String Int × DB :=
  if sid ≤ 0 then (.error "Session ID must be a positive integer", db)
  else
    let r := endSessionList sid now db.sessions
    (.ok r.1, { db with sessions := r.2 })

/-- `Database._check_and_archive_old_data` (database.py lines 372-392):
sessions dated strictly before the cutoff leave the live log (their
archive file is outside the modelled state). -/
def checkAndArchiveOldData (db : DB) (cutoff : String) : DB :=
  { db with sessions := db.sessions.filter (fun s => ¬(s.date < cutoff)) }

/-- `Database.reset_all_data` (database.py lines 911-933): the four
collections return to their empty defaults. -/
def resetAllData (db : DB) : DB :=
  { db with timers := [], next_id := 1, sessions := [], daily_states := [],
            daily_timers := [] }

/-- Modelled from the spec: `get_timer_order` is called by
`TimerManager._load_timers` but its definition is missing from the
repository snapshot.  Spec section 3 "Display Order" keys an ordered
list of timer ids by date, and section 4.4 restores the manual display
order if one was saved: return the date's saved order, else empty. -/
def getTimerOrder (db : DB) (d : String) : List Nat :=
  match alookup db.display_orders d with
  | some o => o
  | none => []

/-- Modelled from the spec: `update_timer_order` (spec section 4.2,
`updateDisplayOrder(date, idList)`), missing from the snapshot: store
the id list as the date's display order. -/
def updateTimerOrder (db : DB) (d : String) (order : List Nat) : DB :=
  { db with display_orders := aset db.display_orders d order }

/-- States of the sessions log reachable by `start_session`,
`end_session`, initialization-time archival and `reset_all_data`,
from any store whose sessions log is empty. -/
inductive SessReachable : DB → Prop
  | init (db : DB) : db.sessions = [] → SessReachable db
  | start (db : DB) (tid : Int) (project : List Char) (now : Nat) (today : String) :
      SessReachable db → SessReachable (startSession db tid project now today).2
  | stop (db : DB) (sid : Int) (now : Nat) :
      SessReachable db → SessReachable (endSession db sid now).2
  | archive (db : DB) (cutoff : String) :
      SessReachable db → SessReachable (checkAndArchiveOldData db cutoff)
  | reset (db : DB) : SessReachable db → SessReachable (resetAllData db)

/-! ## The timer runtime (`TimerManager`) -/

/-- The fields of a `TimerItem` object that the modelled operations
read or write (timer_manager.py lines 25-53).  `is_favorite` is always
false in this snapshot (no `toggle_timer_favorite` in the store) and is
omitted. -/
structure TimerItem where
  id : Nat
  name : List Char
  type : String
  elapsedSeconds : Nat
  countdownSeconds : Nat
  initialCountdownSeconds : Nat
  isRunning : Bool
  lastStarted : Option Nat
deriving DecidableEq

/-- `TimerItem` built from a membership entry merged with its daily
state (`_load_timers`, timer_manager.py lines 257-266): state values
overwrite the catalog copies; a missing `initial_countdown_seconds`
key reads as 0. -/
def mkTimerItem (data : CatalogTimer) (st : DailyState) : TimerItem :=
  ⟨data.id, data.name, data.type, st.elapsed_seconds, st.countdown_seconds,
   st.initial_countdown_seconds.getD 0, st.is_running, st.last_started⟩

/-- The in-memory state of a `TimerManager`: its store, the viewed
date's items, the timer-to-session map, the running-id set, the tick
counter, the viewed date string, and the date used for rollover
detection.  Qt signals and the cached breakdown are presentation-only
and not modelled. -/
structure Manager where
  db : DB
  timers : List TimerItem
  activeSessions : List (Nat × Nat)
  runningTimerIds : List Nat
  timerUpdateCounter : Nat
  currentDateStr : String
  currentDate : String
deriving DecidableEq

/-- Python `set.add` on the running-id set (kept as a duplicate-free
list). -/
def addId (run : List Nat) (tid : Nat) : List Nat :=
  if tid ∈ run then run else run ++ [tid]

/-- First pass of `_load_timers` (timer_manager.py lines 256-270):
build the `timer_items` dict in iteration order and collect running
ids, threading the store through the lazy state creation of
`get_daily_timer_state`. -/
def buildItemsAux :
    List CatalogTimer → DB → String → List (Nat × TimerItem) → List Nat →
      List (Nat × TimerItem) × List Nat × DB
  | [], db, _, acc, run => (acc, run, db)
  | data :: rest, db, d, acc, run =>
    let p := getDailyTimerState db data.id d
    let item := mkTimerItem data p.1
    let run2 := if item.isRunning then addId run data.id else run
    buildItemsAux rest p.2 d (nset acc data.id item) run2

/-- Second pass of `_load_timers` (lines 272-279): take items in the
saved display order, deleting each one used from the dict. -/
def pickOrdered :
    List Nat → List (Nat × TimerItem) → List TimerItem × List (Nat × TimerItem)
  | [], avail => ([], avail)
  | tid :: rest, avail =>
    match nlookup avail tid with
    | some item =>
      let r := pickOrdered rest (ndel avail tid)
      (item :: r.1, r.2)
    | none => pickOrdered rest avail

/-- Insertion into an id-sorted list, for the `sort(key: id)` of the
remaining timers (lines 281-288). -/
def insertById (t : TimerItem) : List TimerItem → List TimerItem
  | [] => [t]
  | x :: xs => if t.id ≤ x.id then t :: x :: xs else x :: insertById t xs

/-- Sort by ascending id. -/
def sortById (l : List TimerItem) : List TimerItem :=
  l.foldr insertById []

/-- `TimerManager._load_timers` (timer_manager.py lines 244-293),
including the closing `_update_display_order_for_current_layout`
(lines 295-305), which writes the realized order back when it differs
from the saved one. -/
def loadTimers (m : Manager) : Manager :=
  let d := m.currentDateStr
  let timerData := getTimersForDate m.db d
  let order := getTimerOrder m.db d
  let b := buildItemsAux timerData m.db d [] []
  let pick := pickOrdered order b.1
  let items := pick.1 ++ sortById (pick.2.map Prod.snd)
  let currentOrder := items.map TimerItem.id
  let db2 :=
    if currentOrder ≠ getTimerOrder b.2.2 d then updateTimerOrder b.2.2 d currentOrder
    else b.2.2
  { m with db := db2, timers := items, runningTimerIds := b.2.1 }

/-- `TimerManager.__init__` (timer_manager.py lines 186-213): fresh
runtime over the given store, viewing today, with the initial
`_load_timers`. -/
def mkManager (db : DB) (today : String) : Manager :=
  loadTimers ⟨db, [], [], [], 0, today, today⟩

/-- `TimerManager.set_current_date` (timer_manager.py lines 312-319). -/
def setCurrentDate (m : Manager) (d : String) : Manager :=
  if m.currentDateStr = d then m
  else loadTimers { m with currentDateStr := d }

/-- `TimerManager._get_timer_by_id` (timer_manager.py lines 749-753). -/
def getTimerById : List TimerItem → Nat → Option TimerItem
  | [], _ => none
  | t :: rest, tid => if t.id = tid then some t else getTimerById rest tid

/-- Replace the (unique) item with the given id, modelling in-place
mutation of the found object. -/
def replaceItem : List TimerItem → Nat → TimerItem → List TimerItem
  | [], _, _ => []
  | t :: rest, tid, t2 =>
    if t.id = tid then t2 :: rest else t :: replaceItem rest tid t2

/-- `TimerManager.addTimer` (timer_manager.py lines 476-505): reload on
success; on a raised error return -1, keeping the store mutations the
failed `add_timer_to_date` call left behind. -/
def addTimerM (m : Manager) (name : List Char) (ttype : String) (now : Nat) :
    Int × Manager :=
  if ttype ≠ "stopwatch" ∧ ttype ≠ "countdown" then (-1, m)
  else
    let r := addTimerToDate m.db m.currentDateStr name ttype now
    match r.1 with
    | .ok tid => ((tid : Int), loadTimers { m with db := r.2 })
    | .error _ => (-1, { m with db := r.2 })

/-- `TimerManager.startTimer` (timer_manager.py lines 508-538), in
source order: mark the item running; open a store session (stopwatch
only; a raise there escapes, leaving the item marked); write the
date-scoped running flag; add the id to the running set.  `tid = 0`
stands for the guarded-out non-positive ids. -/
def startTimerM (m : Manager) (tid : Nat) (now : Nat) (today : String) : Manager :=
  if tid = 0 then m
  else
    match getTimerById m.timers tid with
    | none => m
    | some t =>
      if t.isRunning then m
      else
        let t2 : TimerItem := { t with isRunning := true }
        let timers2 := replaceItem m.timers tid t2
        let afterSession :=
          if t.type = "stopwatch" then
            let r := startSession m.db (tid : Int) t.name now today
            match r.1 with
            | .ok sid => some (r.2, nset m.activeSessions tid sid)
            | .error _ => none
          else some (m.db, m.activeSessions)
        match afterSession with
        | none => { m with timers := timers2 }
        | some (db2, as2) =>
          let db3 := updateDailyTimerState db2 tid m.currentDateStr
            ⟨none, none, some true, some (some now), none⟩
          { m with db := db3, timers := timers2, activeSessions := as2,
                   runningTimerIds := addId m.runningTimerIds tid }

/-- `TimerManager.setCountdownTime` (timer_manager.py lines 617-629):
only countdown items react; the value becomes both the current and the
stored initial countdown. -/
def setCountdownTimeM (m : Manager) (tid : Nat) (seconds : Nat) : Manager :=
  match getTimerById m.timers tid with
  | none => m
  | some t =>
    if t.type = "countdown" then
      let t2 : TimerItem :=
        { t with countdownSeconds := seconds, initialCountdownSeconds := seconds }
      let db2 := updateDailyTimerState m.db tid m.currentDateStr
        ⟨none, some seconds, none, none, some seconds⟩
      { m with timers := replaceItem m.timers tid t2, db := db2 }
    else m

/-- `TimerManager.adjustTime` (timer_manager.py lines 598-615):
`Int.toNat` is exactly the `max(0, _)` clamp; the store write carries
both the elapsed and the countdown value of the mutated item. -/
def adjustTimeM (m : Manager) (tid : Nat) (seconds : Int) : Manager :=
  match getTimerById m.timers tid with
  | none => m
  | some t =>
    let t2 : TimerItem :=
      if t.type = "countdown" then
        { t with countdownSeconds := ((t.countdownSeconds : Int) + seconds).toNat }
      else
        { t with elapsedSeconds := ((t.elapsedSeconds : Int) + seconds).toNat }
    let db2 := updateDailyTimerState m.db tid m.currentDateStr
      ⟨some t2.elapsedSeconds, some t2.countdownSeconds, none, none, none⟩
    { m with timers := replaceItem m.timers tid t2, db := db2 }

/-- One daily-state record under the tick of `_update_running_timers`
(timer_manager.py lines 759-785): running countdowns decrement to a
floor of 0 and are stopped on the tick after reaching 0; running
stopwatches gain one second; ids missing from the catalog are
skipped. -/
def tickState (timers : List CatalogTimer) (tid : Nat) (s : DailyState) : DailyState :=
  if s.is_running then
    match getTimer timers tid with
    | none => s
    | some td =>
      if td.type = "countdown" then
        if s.countdown_seconds > 0 then
          { s with countdown_seconds := s.countdown_seconds - 1 }
        else
          { s with is_running := false, countdown_seconds := 0 }
      else
        { s with elapsed_seconds := s.elapsed_seconds + 1 }
  else s

/-- The whole daily-state table under one tick.  The Python loop visits
each `(date, timer_id)` dict key exactly once and updates precisely
that key through `update_daily_timer_state`, so the final table is
this pointwise map. -/
def tickTable (timers : List CatalogTimer)
    (t : List (String × List (Nat × DailyState))) :
    List (String × List (Nat × DailyState)) :=
  t.map (fun p => (p.1, p.2.map (fun q => (q.1, tickState timers q.1 q.2))))

/-- Resync step for one viewed-date item (`_update_running_timers`,
timer_manager.py lines 787-808): running items re-read their record
(lazily creating it if absent) and copy the countdown/elapsed value and
a cleared running flag; signals are not modelled. -/
def resyncItem (d : String) (acc : List TimerItem × DB) (t : TimerItem) :
    List TimerItem × DB :=
  if t.isRunning then
    let p := getDailyTimerState acc.2 t.id d
    let t2 :=
      if t.type = "countdown" then
        let t3 : TimerItem := { t with countdownSeconds := p.1.countdown_seconds }
        if p.1.is_running = false then { t3 with isRunning := false } else t3
      else { t with elapsedSeconds := p.1.elapsed_seconds }
    (acc.1 ++ [t2], p.2)
  else (acc.1 ++ [t], acc.2)

/-- `TimerManager._update_running_timers` (timer_manager.py lines
755-808): advance every running state on every date, then resync the
viewed date's items. -/
def updateRunningTimers (m : Manager) : Manager :=
  let db1 : DB := { m.db with daily_states := tickTable m.db.timers m.db.daily_states }
  let r := m.timers.foldl (resyncItem m.currentDateStr) ([], db1)
  { m with db := r.2, timers := r.1 }

/-- `TimerManager._check_day_rollover` (timer_manager.py lines
848-854); the breakdown cache refresh is presentation-only. -/
def checkDayRollover (m : Manager) (today : String) : Manager :=
  if today ≠ m.currentDate then { m with currentDate := today } else m

/-- `TimerManager._consolidated_timer_update` (timer_manager.py lines
816-843), one Scheduler tick: bump the counter; advance running timers
only when the runtime's running-id set is nonempty; every 60th tick
check day rollover; the 5-tick breakdown refresh only reads state; the
counter wraps at 300. -/
def consolidatedTimerUpdate (m : Manager) (today : String) : Manager :=
  let m1 : Manager := { m with timerUpdateCounter := m.timerUpdateCounter + 1 }
  let m2 := if m1.runningTimerIds ≠ [] then updateRunningTimers m1 else m1
  let m3 := if m2.timerUpdateCounter % 60 = 0 then checkDayRollover m2 today else m2
  if m3.timerUpdateCounter ≥ 300 then { m3 with timerUpdateCounter := 0 } else m3

/-- `n` Scheduler ticks on one (unchanging) wall-clock day. -/
def ticks (m : Manager) (today : String) : Nat → Manager
  | 0 => m
  | n + 1 => ticks (consolidatedTimerUpdate m today) today n

/-! ## Concrete states used by witnesses and counterexamples -/

/-- A store holding one stopwatch timer named "Standup" on 2024-01-01. -/
def dbW : DB :=
  (addTimerToDate emptyDB "2024-01-01" "Standup".toList "stopwatch" 50).2

/-- A fresh runtime viewing 2024-01-01 over an empty store. -/
def mgrA0 : Manager := mkManager emptyDB "2024-01-01"

/-- After adding the stopwatch "Work" to the viewed date 2024-01-01. -/
def mgrA1 : Manager := (addTimerM mgrA0 "Work".toList "stopwatch" 100).2

/-- After starting that stopwatch (id 1). -/
def mgrA2 : Manager := startTimerM mgrA1 1 100 "2024-01-01"

/-- After the user switches the viewed date to 2024-01-02: the stopwatch
keeps `is_running = true` in the daily-state table for 2024-01-01, but
the runtime's running-id set is rebuilt from 2024-01-02 and is empty. -/
def mgrA3 : Manager := setCurrentDate mgrA2 "2024-01-02"

/-- One Scheduler tick in that situation. -/
def mgrA4 : Manager := consolidatedTimerUpdate mgrA3 "2024-01-01"

/-- After adding the countdown "Rest" to the viewed date 2024-01-01. -/
def mgrB1 : Manager := (addTimerM mgrA0 "Rest".toList "countdown" 100).2

/-- After configuring the countdown to 10 seconds. -/
def mgrB2 : Manager := setCountdownTimeM mgrB1 1 10

/-- After starting the countdown (id 1). -/
def mgrB3 : Manager := startTimerM mgrB2 1 100 "2024-01-01"

/-- After switching the viewed date to 2024-01-02 with the countdown
still running on 2024-01-01. -/
def mgrB4 : Manager := setCurrentDate mgrB3 "2024-01-02"

/-- One Scheduler tick in that situation. -/
def mgrB5 : Manager := consolidatedTimerUpdate mgrB4 "2024-01-01"

/-- A sessions store after one `start_session` call on a fresh store. -/
def dbS : DB := (startSession emptyDB 1 "Alpha".toList 10 "2024-01-01").2

/-! ### Character-level facts about the sanitizer -/

theorem char_toNat_inj {c d : Char} (h : c.toNat = d.toNat) : c = d := by
  have h2 := congrArg Char.ofNat h
  rwa [Char.ofNat_toNat, Char.ofNat_toNat] at h2

theorem toNat_charOfNat {n : Nat} (h : n.isValidChar) : (Char.ofNat n).toNat = n := by
  unfold Char.ofNat
  rw [dif_pos h]
  rfl

theorem toNat_lowerChar (c : Char) :
    (lowerChar c).toNat =
      if 65 ≤ c.toNat ∧ c.toNat ≤ 90 then c.toNat + 32 else c.toNat := by
  by_cases h : 65 ≤ c.toNat ∧ c.toNat ≤ 90
  · rw [lowerChar, if_pos h, if_pos h, toNat_charOfNat (Or.inl (by omega))]
  · rw [lowerChar, if_neg h, if_neg h]

theorem lowerChar_of_space {c : Char} (h : isPySpace c = true) : lowerChar c = c := by
  simp only [isPySpace, Bool.or_eq_true, beq_iff_eq] at h
  rcases h with ((((rfl | rfl) | rfl) | rfl) | rfl) | rfl <;> decide

theorem not_space_of_lower {c p : Char} (hm : lowerChar c = p)
    (hp : isPySpace p = false) : isPySpace c = false := by
  by_contra h
  have h' : isPySpace c = true := by
    cases h2 : isPySpace c
    · exact absurd h2 h
    · rfl
  rw [lowerChar_of_space h'] at hm
  rw [hm] at h'
  rw [h'] at hp
  cases hp

theorem eq_lt_of_lowerChar {c : Char} (h : lowerChar c = '<') : c = '<' := by
  have hn := congrArg Char.toNat h
  rw [toNat_lowerChar] at hn
  have h60 : ('<' : Char).toNat = 60 := rfl
  apply char_toNat_inj
  rw [h60]
  by_cases hc : 65 ≤ c.toNat ∧ c.toNat ≤ 90
  · rw [if_pos hc, h60] at hn
    omega
  · rw [if_neg hc, h60] at hn
    exact hn

/-! ### Substring (infix) characterization of the case-insensitive searches -/

theorem cons_infix_of {m : List Char} {c : Char} {l : List Char} (h : m <:+: l) :
    m <:+: c :: l := by
  obtain ⟨s, t, hh⟩ := h
  exact ⟨c :: s, t, by rw [← hh]; rfl⟩

theorem rev_infix {m l : List Char} (h : m <:+: l) : m.reverse <:+: l.reverse := by
  obtain ⟨s, t, hh⟩ := h
  exact ⟨t.reverse, s.reverse, by rw [← hh]; simp⟩

theorem matchesAtCI_iff {pat l : List Char} :
    matchesAtCI pat l = true ↔ ∃ m t, l = m ++ t ∧ m.map lowerChar = pat := by
  induction pat generalizing l with
  | nil =>
    simp only [matchesAtCI]
    constructor
    · intro _
      exact ⟨[], l, rfl, rfl⟩
    · intro _
      trivial
  | cons p ps ih =>
    cases l with
    | nil =>
      simp only [matchesAtCI]
      constructor
      · intro h
        cases h
      · rintro ⟨m, t, hmt, hmap⟩
        have hm : m = [] := by
          cases m
          · rfl
          · cases hmt
        subst hm
        cases hmap
    | cons c cs =>
      simp only [matchesAtCI, Bool.and_eq_true, beq_iff_eq]
      constructor
      · rintro ⟨hc, hrest⟩
        obtain ⟨m, t, rfl, hmap⟩ := ih.mp hrest
        exact ⟨c :: m, t, rfl, by simp [hmap, hc]⟩
      · rintro ⟨m, t, hmt, hmap⟩
        cases m with
        | nil => cases hmap
        | cons a m' =>
          injection hmt with h1 h2
          subst h1
          injection hmap with h3 h4
          exact ⟨h3, ih.mpr ⟨m', t, h2, h4⟩⟩

theorem containsCI_iff {pat l : List Char} :
    containsCI pat l = true ↔ ∃ m, m.map lowerChar = pat ∧ m <:+: l := by
  induction l with
  | nil =>
    simp only [containsCI, List.isEmpty_iff]
    constructor
    · intro h
      exact ⟨[], by rw [h]; rfl, ⟨[], [], rfl⟩⟩
    · rintro ⟨m, hmap, hinf⟩
      have hm : m = [] := by
        obtain ⟨s, t, hh⟩ := hinf
        cases s <;> cases m <;> first | rfl | cases hh
      subst hm
      exact hmap.symm
  | cons c cs ih =>
    simp only [containsCI, Bool.or_eq_true]
    constructor
    · rintro (h | h)
      · obtain ⟨m, t, hmt, hmap⟩ := matchesAtCI_iff.mp h
        exact ⟨m, hmap, ⟨[], t, by simp [hmt]⟩⟩
      · obtain ⟨m, hmap, hinf⟩ := ih.mp h
        exact ⟨m, hmap, cons_infix_of hinf⟩
    · rintro ⟨m, hmap, hinf⟩
      obtain ⟨s, t, hh⟩ := hinf
      cases s with
      | nil =>
        left
        exact matchesAtCI_iff.mpr ⟨m, t, by rw [← hh]; rfl, hmap⟩
      | cons a s' =>
        right
        apply ih.mpr
        have hh2 : s' ++ m ++ t = cs := by
          simp only [List.cons_append] at hh
          injection hh with h1 h2
        exact ⟨m, hmap, s', t, hh2⟩

/-! ### Preservation of non-whitespace substrings by strip and collapse -/

theorem mem_dropWhileWS {c : Char} {l : List Char} (hc : isPySpace c = false)
    (h : c ∈ l) : c ∈ l.dropWhile isPySpace := by
  rcases (List.mem_append.mp
      ((List.takeWhile_append_dropWhile isPySpace l) ▸ h)) with h' | h'
  · have := List.mem_takeWhile_imp h'
    rw [hc] at this
    cases this
  · exact h'

theorem mem_pyStrip {c : Char} {l : List Char} (hc : isPySpace c = false)
    (h : c ∈ l) : c ∈ pyStrip l := by
  unfold pyStrip
  rw [List.mem_reverse]
  exact mem_dropWhileWS hc (List.mem_reverse.mpr (mem_dropWhileWS hc h))

theorem infix_dropWhileWS {m l : List Char}
    (hm : ∀ c ∈ m, isPySpace c = false) (hne : m ≠ []) (h : m <:+: l) :
    m <:+: l.dropWhile isPySpace := by
  induction l with
  | nil => exact h
  | cons c cs ih =>
    rw [List.dropWhile_cons]
    by_cases hc : isPySpace c
    · rw [if_pos hc]
      apply ih
      obtain ⟨s, t, hh⟩ := h
      cases s with
      | nil =>
        exfalso
        cases m with
        | nil => exact hne rfl
        | cons a m' =>
          simp only [List.nil_append, List.cons_append] at hh
          injection hh with h1 h2
          subst h1
          rw [hm a (List.mem_cons_self a m')] at hc
          cases hc
      | cons a s' =>
        simp only [List.cons_append] at hh
        injection hh with h1 h2
        exact ⟨s', t, h2⟩
    · rw [if_neg hc]
      exact h

theorem infix_pyStrip {m l : List Char}
    (hm : ∀ c ∈ m, isPySpace c = false) (hne : m ≠ []) (h : m <:+: l) :
    m <:+: pyStrip l := by
  unfold pyStrip
  have h1 := infix_dropWhileWS hm hne h
  have h2 := rev_infix h1
  have hm2 : ∀ c ∈ m.reverse, isPySpace c = false := by
    intro c hc
    exact hm c (List.mem_reverse.mp hc)
  have hne2 : m.reverse ≠ [] := by
    intro h'
    exact hne (by simpa using congrArg List.reverse h')
  have h3 := infix_dropWhileWS hm2 hne2 h2
  have h4 := rev_infix h3
  rwa [List.reverse_reverse] at h4

theorem prefix_collapseWS :
    ∀ {m l : List Char} (b : Bool), (∀ c ∈ m, isPySpace c = false) →
      m <+: l → m <+: collapseWS b l := by
  intro m
  induction m with
  | nil =>
    intro l b _ _
    exact List.nil_prefix
  | cons a m' ih =>
    intro l b hm h
    obtain ⟨t, ht⟩ := h
    subst ht
    have ha : isPySpace a = false := hm a (List.mem_cons_self a m')
    have hm' : ∀ c ∈ m', isPySpace c = false := fun c hc =>
      hm c (List.mem_cons_of_mem a hc)
    simp only [List.cons_append, collapseWS, ha, Bool.false_eq_true, if_false]
    obtain ⟨t2, ht2⟩ := ih false hm' ⟨t, rfl⟩
    exact ⟨t2, by rw [List.cons_append, ht2]; rfl⟩

theorem infix_collapseWS :
    ∀ {l m : List Char} (b : Bool), (∀ c ∈ m, isPySpace c = false) →
      m <:+: l → m <:+: collapseWS b l := by
  intro l
  induction l with
  | nil =>
    intro m b _ h
    exact h
  | cons c cs ih =>
    intro m b hm h
    obtain ⟨s, t, hh⟩ := h
    cases s with
    | nil =>
      have hpre : m <+: c :: cs := ⟨t, by simpa using hh⟩
      obtain ⟨t2, ht2⟩ := prefix_collapseWS b hm hpre
      exact ⟨[], t2, by simpa using ht2⟩
    | cons a s' =>
      have hh2 : s' ++ m ++ t = cs := by
        simp only [List.cons_append] at hh
        injection hh with h1 h2
      have hcs : m <:+: cs := ⟨s', t, hh2⟩
      simp only [collapseWS]
      by_cases hc : isPySpace c
      · simp only [hc, if_true]
        cases b
        · simp only [Bool.false_eq_true, if_false]
          exact cons_infix_of (ih true hm hcs)
        · simp only [if_true]
          exact ih true hm hcs
      · simp only [hc, Bool.false_eq_true, if_false]
        exact cons_infix_of (ih false hm hcs)

theorem containsCI_pipeline {pat l : List Char} (hpat : pat ≠ [])
    (hpat2 : ∀ p ∈ pat, isPySpace p = false)
    (h : containsCI pat l = true) :
    containsCI pat (collapseWS false (pyStrip l)) = true := by
  obtain ⟨m, hmap, hinf⟩ := containsCI_iff.mp h
  have hm : ∀ c ∈ m, isPySpace c = false := by
    intro c hc
    have hcl : lowerChar c ∈ pat := hmap ▸ List.mem_map_of_mem lowerChar hc
    exact not_space_of_lower rfl (hpat2 _ hcl)
  have hne : m ≠ [] := by
    intro h'
    subst h'
    exact hpat hmap.symm
  exact containsCI_iff.mpr
    ⟨m, hmap, infix_collapseWS false hm (infix_pyStrip hm hne hinf)⟩

/-! ### Shape of the collapsed string: single spaces only, trimmed ends -/

theorem wellSpaced_collapseWS : ∀ (l : List Char) (b : Bool),
    wellSpaced b (collapseWS b l) = true := by
  intro l
  induction l with
  | nil => intro b; rfl
  | cons c cs ih =>
    intro b
    by_cases hc : isPySpace c
    · cases b
      · simp only [collapseWS, hc, if_true, Bool.false_eq_true, if_false,
          wellSpaced]
        simp only [isPySpace]
        simp only [wellSpaced] at ih
        simpa using ih true
      · simp only [collapseWS, hc, if_true]
        exact ih true
    · simp only [collapseWS, hc, Bool.false_eq_true, if_false, wellSpaced]
      exact ih false

theorem collapseWS_eq_self : ∀ (l : List Char) (b : Bool),
    wellSpaced b l = true → collapseWS b l = l := by
  intro l
  induction l with
  | nil => intro b _; rfl
  | cons c cs ih =>
    intro b h
    by_cases hc : isPySpace c
    · simp only [wellSpaced, hc, if_true, Bool.and_eq_true, Bool.not_eq_true',
        beq_iff_eq] at h
      obtain ⟨⟨hb, hsp⟩, hrest⟩ := h
      subst hb
      subst hsp
      simp only [collapseWS, hc, if_true, Bool.false_eq_true, if_false]
      rw [ih true hrest]
    · simp only [wellSpaced, hc, Bool.false_eq_true, if_false] at h
      simp only [collapseWS, hc, Bool.false_eq_true, if_false]
      rw [ih false h]

theorem noDoubleWS_of_wellSpaced : ∀ (l : List Char) (b : Bool),
    wellSpaced b l = true → noDoubleWS l = true := by
  intro l
  induction l with
  | nil => intro b _; rfl
  | cons c1 cs ih =>
    intro b h
    cases cs with
    | nil => rfl
    | cons c2 cs' =>
      by_cases hc1 : isPySpace c1
      · simp only [wellSpaced, hc1, if_true, Bool.and_eq_true,
          Bool.not_eq_true', beq_iff_eq] at h
        obtain ⟨⟨hb, hsp⟩, hrest⟩ := h
        have hc2 : isPySpace c2 = false := by
          by_cases h2 : isPySpace c2
          · simp only [wellSpaced, h2, if_true, Bool.and_eq_true,
              Bool.not_eq_true'] at hrest
            cases hrest.1.1
          · simpa using h2
        simp only [noDoubleWS, hc1, hc2, Bool.and_false, Bool.not_false,
          Bool.true_and]
        exact ih true hrest
      · simp only [wellSpaced, hc1, Bool.false_eq_true, if_false] at h
        have hc1' : isPySpace c1 = false := by simpa using hc1
        simp only [noDoubleWS, hc1', Bool.false_and, Bool.not_false,
          Bool.true_and]
        exact ih false h

theorem headOkWS_dropWhile (l : List Char) :
    headOkWS (l.dropWhile isPySpace) = true := by
  induction l with
  | nil => rfl
  | cons c cs ih =>
    rw [List.dropWhile_cons]
    by_cases hc : isPySpace c
    · rw [if_pos hc]
      exact ih
    · rw [if_neg hc]
      simpa [headOkWS] using hc

theorem dropWhileWS_eq_self {l : List Char} (h : headOkWS l = true) :
    l.dropWhile isPySpace = l := by
  cases l with
  | nil => rfl
  | cons c cs =>
    simp only [headOkWS, Bool.not_eq_true'] at h
    rw [List.dropWhile_cons, if_neg (by simp [h])]

theorem headOkWS_append {x y : List Char} (hx : x ≠ []) :
    headOkWS (x ++ y) = headOkWS x := by
  cases x with
  | nil => exact absurd rfl hx
  | cons c cs => rfl

theorem headOkWS_reverse (l : List Char) : headOkWS l.reverse = lastOkWS l := by
  induction l with
  | nil => rfl
  | cons c cs ih =>
    cases cs with
    | nil => rfl
    | cons c2 cs' =>
      have hne : (c2 :: cs').reverse ≠ [] := by simp
      calc headOkWS (c :: c2 :: cs').reverse
          = headOkWS ((c2 :: cs').reverse ++ [c]) := by rw [List.reverse_cons]
        _ = headOkWS (c2 :: cs').reverse := headOkWS_append hne
        _ = lastOkWS (c2 :: cs') := ih
        _ = lastOkWS (c :: c2 :: cs') := rfl

theorem lastOkWS_reverse (l : List Char) : lastOkWS l.reverse = headOkWS l := by
  have h := headOkWS_reverse l.reverse
  rw [List.reverse_reverse] at h
  exact h.symm

theorem collapseWS_cons (b : Bool) (c : Char) (cs : List Char) :
    collapseWS b (c :: cs) =
      if isPySpace c then
        (if b then collapseWS true cs else ' ' :: collapseWS true cs)
      else c :: collapseWS false cs := rfl

theorem lastOkWS_dropWhile {l : List Char} (h : lastOkWS l = true) :
    lastOkWS (l.dropWhile isPySpace) = true := by
  induction l with
  | nil => rfl
  | cons c cs ih =>
    rw [List.dropWhile_cons]
    by_cases hc : isPySpace c
    · rw [if_pos hc]
      cases cs with
      | nil => rfl
      | cons c2 cs' => exact ih h
    · rw [if_neg hc]
      exact h

theorem pyStrip_eq_self {l : List Char} (h1 : headOkWS l = true)
    (h2 : lastOkWS l = true) : pyStrip l = l := by
  unfold pyStrip
  rw [dropWhileWS_eq_self h1]
  rw [dropWhileWS_eq_self (by rw [headOkWS_reverse]; exact h2)]
  exact List.reverse_reverse l

theorem headOkWS_pyStrip (l : List Char) : headOkWS (pyStrip l) = true := by
  unfold pyStrip
  rw [headOkWS_reverse, lastOkWS_dropWhile]
  rw [lastOkWS_reverse]
  exact headOkWS_dropWhile l

theorem lastOkWS_pyStrip (l : List Char) : lastOkWS (pyStrip l) = true := by
  unfold pyStrip
  rw [lastOkWS_reverse]
  exact headOkWS_dropWhile _

theorem headOkWS_collapseWS {l : List Char} (h : headOkWS l = true) :
    headOkWS (collapseWS false l) = true := by
  cases l with
  | nil => rfl
  | cons c cs =>
    simp only [headOkWS, Bool.not_eq_true'] at h
    simp only [collapseWS, h, Bool.false_eq_true, if_false]
    simpa [headOkWS] using h

theorem lastOkWS_cons_ne {a : Char} {x : List Char} (hx : x ≠ []) :
    lastOkWS (a :: x) = lastOkWS x := by
  cases x with
  | nil => exact absurd rfl hx
  | cons c cs => rfl

theorem lastOkWS_collapseWS : ∀ (l : List Char) (b : Bool),
    lastOkWS l = true → l ≠ [] →
    collapseWS b l ≠ [] ∧ lastOkWS (collapseWS b l) = true := by
  intro l
  induction l with
  | nil =>
    intro b _ hne
    exact absurd rfl hne
  | cons c cs ih =>
    intro b h _
    cases cs with
    | nil =>
      have hc : isPySpace c = false := by
        simpa [lastOkWS, Bool.not_eq_true'] using h
      rw [collapseWS_cons, if_neg (by simp [hc])]
      constructor
      · simp
      · simpa [lastOkWS] using hc
    | cons c2 cs' =>
      have h' : lastOkWS (c2 :: cs') = true := h
      by_cases hc : isPySpace c
      · cases b
        · rw [collapseWS_cons, if_pos hc, if_neg (by simp)]
          obtain ⟨hne1, hlast1⟩ := ih true h' (by simp)
          refine ⟨by simp, ?_⟩
          rw [lastOkWS_cons_ne hne1]
          exact hlast1
        · rw [collapseWS_cons, if_pos hc, if_pos rfl]
          exact ih true h' (by simp)
      · rw [collapseWS_cons, if_neg hc]
        obtain ⟨hne1, hlast1⟩ := ih false h' (by simp)
        refine ⟨by simp, ?_⟩
        rw [lastOkWS_cons_ne hne1]
        exact hlast1

theorem all_allowed_collapseWS : ∀ (l : List Char) (b : Bool),
    l.all isAllowedChar = true → (collapseWS b l).all isAllowedChar = true := by
  intro l
  induction l with
  | nil => intro b _; rfl
  | cons c cs ih =>
    intro b h
    simp only [List.all_cons, Bool.and_eq_true] at h
    by_cases hc : isPySpace c
    · cases b
      · simp only [collapseWS, hc, if_true, Bool.false_eq_true, if_false,
          List.all_cons, Bool.and_eq_true]
        exact ⟨by decide, ih true h.2⟩
      · simp only [collapseWS, hc, if_true]
        exact ih true h.2
    · simp only [collapseWS, hc, Bool.false_eq_true, if_false, List.all_cons,
        Bool.and_eq_true]
      exact ⟨h.1, ih false h.2⟩

theorem length_collapseWS_le : ∀ (l : List Char) (b : Bool),
    (collapseWS b l).length ≤ l.length := by
  intro l
  induction l with
  | nil => intro b; simp [collapseWS]
  | cons c cs ih =>
    intro b
    by_cases hc : isPySpace c
    · cases b
      · simp only [collapseWS, hc, if_true, Bool.false_eq_true, if_false,
          List.length_cons]
        exact Nat.succ_le_succ (ih true)
      · simp only [collapseWS, hc, if_true, List.length_cons]
        exact Nat.le_succ_of_le (ih true)
    · simp only [collapseWS, hc, Bool.false_eq_true, if_false,
        List.length_cons]
      exact Nat.succ_le_succ (ih false)

theorem collapseWS_ne_nil {l : List Char} (hh : headOkWS l = true)
    (hne : l ≠ []) : collapseWS false l ≠ [] := by
  cases l with
  | nil => exact absurd rfl hne
  | cons c cs =>
    simp only [headOkWS, Bool.not_eq_true'] at hh
    simp [collapseWS, hh]

/-! ### Decomposition of a successful sanitization -/

theorem sanitizeTimerName_ok {x y : List Char}
    (h : sanitizeTimerName x = .ok y) :
    x ≠ [] ∧ pyStrip x ≠ [] ∧ (pyStrip x).length ≤ 100 ∧
    (pyStrip x).all isAllowedChar = true ∧
    y = collapseWS false (pyStrip x) ∧ hasDangerous y = false := by
  unfold sanitizeTimerName at h
  by_cases h1 : x.isEmpty
  · rw [if_pos h1] at h
    cases h
  · rw [if_neg h1] at h
    by_cases h2 : (pyStrip x).isEmpty
    · rw [if_pos h2] at h
      cases h
    · rw [if_neg h2] at h
      by_cases h3 : (pyStrip x).length > 100
      · rw [if_pos h3] at h
        cases h
      · rw [if_neg h3] at h
        by_cases h4 : (pyStrip x).length < 1
        · rw [if_pos h4] at h
          cases h
        · rw [if_neg h4] at h
          by_cases h5 : !((pyStrip x).all isAllowedChar)
          · rw [if_pos h5] at h
            cases h
          · rw [if_neg h5] at h
            by_cases h6 : hasDangerous (collapseWS false (pyStrip x))
            · rw [if_pos h6] at h
              cases h
            · rw [if_neg h6] at h
              injection h with hy
              subst hy
              refine ⟨by simpa [List.isEmpty_iff] using h1,
                by simpa [List.isEmpty_iff] using h2, by omega,
                by simpa using h5, rfl, by simpa using h6⟩

/-! ### Every injection signature forces a rejection -/

theorem eq_mem_of_spacesThenEq : ∀ {l : List Char},
    spacesThenEq l = true → '=' ∈ l := by
  intro l
  induction l with
  | nil => intro h; cases h
  | cons c cs ih =>
    intro h
    by_cases hc : isPySpace c
    · rw [spacesThenEq, if_pos hc] at h
      exact List.mem_cons_of_mem c (ih h)
    · rw [spacesThenEq, if_neg hc] at h
      rw [beq_iff_eq] at h
      subst h
      exact List.mem_cons_self '=' cs

theorem eq_mem_of_wordTail : ∀ {l : List Char},
    wordTail l = true → '=' ∈ l := by
  intro l
  induction l with
  | nil => intro h; cases h
  | cons c cs ih =>
    intro h
    by_cases hc : isWordChar c
    · rw [wordTail, if_pos hc] at h
      exact List.mem_cons_of_mem c (ih h)
    · rw [wordTail, if_neg hc] at h
      exact eq_mem_of_spacesThenEq h

theorem eq_mem_of_searchHandler : ∀ {l : List Char},
    searchHandler l = true → '=' ∈ l := by
  intro l
  induction l with
  | nil => intro h; cases h
  | cons c cs ih =>
    intro h
    rw [searchHandler, Bool.or_eq_true] at h
    rcases h with h | h
    · cases cs with
      | nil => cases h
      | cons c2 cs2 =>
        cases cs2 with
        | nil => cases h
        | cons c3 rest =>
          simp only [handlerAt, Bool.and_eq_true] at h
          exact List.mem_cons_of_mem c (List.mem_cons_of_mem c2
            (List.mem_cons_of_mem c3 (eq_mem_of_wordTail h.2)))
    · exact List.mem_cons_of_mem c (ih h)

theorem lt_mem_of_containsCI {ps l : List Char}
    (h : containsCI ('<' :: ps) l = true) : '<' ∈ l := by
  obtain ⟨m, hmap, hinf⟩ := containsCI_iff.mp h
  cases m with
  | nil => cases hmap
  | cons c m' =>
    rw [List.map_cons] at hmap
    injection hmap with hc _
    have hceq : c = '<' := eq_lt_of_lowerChar hc
    subst hceq
    obtain ⟨s, t, hh⟩ := hinf
    rw [← hh]
    simp

/-! ### Claim C7 -/

/-- Claim C7: for every string the timer-name sanitizer accepts, the
sanitizer is idempotent (sanitizing the output returns it unchanged),
and the output is trimmed and contains no run of more than one
whitespace character. -/
theorem sanitize_idempotent {x y : List Char}
    (h : sanitizeTimerName x = .ok y) :
    sanitizeTimerName y = .ok y ∧ pyStrip y = y ∧ noDoubleWS y = true := by
  obtain ⟨hx, hs, hlen, hall, hy, hdang⟩ := sanitizeTimerName_ok h
  have hhead_s : headOkWS (pyStrip x) = true := headOkWS_pyStrip x
  have hlast_s : lastOkWS (pyStrip x) = true := lastOkWS_pyStrip x
  have hyne : y ≠ [] := by rw [hy]; exact collapseWS_ne_nil hhead_s hs
  have hyhead : headOkWS y = true := by rw [hy]; exact headOkWS_collapseWS hhead_s
  have hylast : lastOkWS y = true := by
    rw [hy]; exact (lastOkWS_collapseWS _ false hlast_s hs).2
  have hstrip : pyStrip y = y := pyStrip_eq_self hyhead hylast
  have hws : wellSpaced false y = true := by
    rw [hy]; exact wellSpaced_collapseWS (pyStrip x) false
  have hcoll : collapseWS false y = y := collapseWS_eq_self y false hws
  have hnd : noDoubleWS y = true := noDoubleWS_of_wellSpaced y false hws
  have hylen : y.length ≤ 100 := by
    rw [hy]; exact le_trans (length_collapseWS_le _ false) hlen
  have hyall : y.all isAllowedChar = true := by
    rw [hy]; exact all_allowed_collapseWS _ false hall
  have hpos : 0 < y.length := List.length_pos.mpr hyne
  refine ⟨?_, hstrip, hnd⟩
  unfold sanitizeTimerName
  rw [if_neg (by simpa [List.isEmpty_iff] using hyne)]
  rw [hstrip]
  rw [if_neg (by simpa [List.isEmpty_iff] using hyne)]
  rw [if_neg (by omega)]
  rw [if_neg (by omega)]
  rw [if_neg (by simp [hyall])]
  rw [hcoll]
  rw [if_neg (by simp [hdang])]

/-- Witness for C7: the accepted input `"a  b"` sanitizes to `"a b"`,
on which the sanitizer is idempotent. -/
theorem sanitize_idempotent_witness :
    sanitizeTimerName ('a' :: ' ' :: ' ' :: 'b' :: []) =
      .ok ('a' :: ' ' :: 'b' :: []) ∧
    (sanitizeTimerName ('a' :: ' ' :: 'b' :: []) =
      .ok ('a' :: ' ' :: 'b' :: []) ∧
     pyStrip ('a' :: ' ' :: 'b' :: []) = ('a' :: ' ' :: 'b' :: []) ∧
     noDoubleWS ('a' :: ' ' :: 'b' :: []) = true) :=
  ⟨rfl, @sanitize_idempotent ('a' :: ' ' :: ' ' :: 'b' :: [])
    ('a' :: ' ' :: 'b' :: []) rfl⟩

/-! ### Claim C8 -/

/-- Claim C8: every input containing (case-insensitively) one of the
injection signatures — a literal `<script`, `javascript:`, an HTML
event-handler `on` followed by word characters, optional whitespace and
`=`, or a literal `<iframe`, `<object`, `<embed` — makes the sanitizer
raise a ValidationError; it never returns a cleaned version of such an
input. -/
theorem sanitize_rejects_injection {x : List Char}
    (h : containsCI "<script".toList x = true ∨
         containsCI "javascript:".toList x = true ∨
         searchHandler x = true ∨
         containsCI "<iframe".toList x = true ∨
         containsCI "<object".toList x = true ∨
         containsCI "<embed".toList x = true) :
    ∃ e, sanitizeTimerName x = .error e := by
  cases hok : sanitizeTimerName x with
  | error e => exact ⟨e, rfl⟩
  | ok y =>
    exfalso
    obtain ⟨hx, hs, hlen, hall, hy, hdang⟩ := sanitizeTimerName_ok hok
    have hallm : ∀ c ∈ pyStrip x, isAllowedChar c = true := List.all_eq_true.mp hall
    have hlt : ∀ {ps : List Char}, containsCI ('<' :: ps) x = true → False := by
      intro ps hcont
      have hmem : '<' ∈ pyStrip x :=
        mem_pyStrip (by decide) (lt_mem_of_containsCI hcont)
      exact absurd (hallm _ hmem) (by decide)
    rcases h with h | h | h | h | h | h
    · exact hlt h
    · have hres := containsCI_pipeline (by decide) (by decide) h
      rw [← hy] at hres
      have hd : hasDangerous y = true := by
        unfold hasDangerous
        rw [hres]
        simp
      rw [hdang] at hd
      cases hd
    · have hmem : '=' ∈ pyStrip x :=
        mem_pyStrip (by decide) (eq_mem_of_searchHandler h)
      exact absurd (hallm _ hmem) (by decide)
    · exact hlt h
    · exact hlt h
    · exact hlt h

/-- Witness for C8 at the concrete input `"javascript:alert"`. -/
theorem sanitize_rejects_injection_witness :
    ∃ e, sanitizeTimerName "javascript:alert".toList = .error e :=
  sanitize_rejects_injection (Or.inr (Or.inl (by decide)))

/-! ### Association-table lemmas for the daily-state store -/

theorem applyUpdate_empty (s : DailyState) : applyUpdate emptyUpdate s = s := by
  cases s
  rfl

theorem nlookup_updInner_same (l : List (Nat × DailyState)) (tid : Nat)
    (u : StateUpdate) :
    nlookup (updInner l tid u) tid =
      some (applyUpdate u ((nlookup l tid).getD defaultDailyState)) := by
  induction l with
  | nil => simp [updInner, nlookup]
  | cons p rest ih =>
    obtain ⟨k, s⟩ := p
    by_cases hk : k = tid
    · subst hk
      simp [updInner, nlookup]
    · simp only [updInner, nlookup, if_neg hk]
      exact ih

theorem nlookup_updInner_other (l : List (Nat × DailyState)) (tid tid2 : Nat)
    (u : StateUpdate) (h : tid2 ≠ tid) :
    nlookup (updInner l tid u) tid2 = nlookup l tid2 := by
  induction l with
  | nil => simp [updInner, nlookup, Ne.symm h]
  | cons p rest ih =>
    obtain ⟨k, s⟩ := p
    by_cases hk : k = tid
    · subst hk
      simp [updInner, nlookup, Ne.symm h]
    · simp only [updInner, nlookup, if_neg hk]
      by_cases hk2 : k = tid2
      · rw [if_pos hk2, if_pos hk2]
      · rw [if_neg hk2, if_neg hk2]
        exact ih

theorem lookupTable_updOuter_same (t : List (String × List (Nat × DailyState)))
    (d : String) (tid : Nat) (u : StateUpdate) :
    lookupTable (updOuter t d tid u) d tid =
      some (applyUpdate u ((lookupTable t d tid).getD defaultDailyState)) := by
  induction t with
  | nil =>
    simp [updOuter, lookupTable, alookup, nlookup_updInner_same, nlookup]
  | cons p rest ih =>
    obtain ⟨k, inner⟩ := p
    by_cases hk : k = d
    · subst hk
      simp [updOuter, lookupTable, alookup, nlookup_updInner_same]
    · simp only [updOuter, lookupTable, alookup, if_neg hk]
      exact ih

theorem lookupTable_updOuter_other (t : List (String × List (Nat × DailyState)))
    (d : String) (tid : Nat) (u : StateUpdate) (d2 : String) (tid2 : Nat)
    (h : d2 ≠ d ∨ tid2 ≠ tid) :
    lookupTable (updOuter t d tid u) d2 tid2 = lookupTable t d2 tid2 := by
  induction t with
  | nil =>
    rcases h with h | h
    · simp [updOuter, lookupTable, alookup, Ne.symm h]
    · simp only [updOuter, lookupTable, alookup]
      by_cases hd : d = d2
      · rw [if_pos hd]
        simp [nlookup_updInner_other _ _ _ _ h, nlookup, Ne.symm h]
      · rw [if_neg hd]
  | cons p rest ih =>
    obtain ⟨k, inner⟩ := p
    by_cases hk : k = d
    · subst hk
      simp only [updOuter, if_pos rfl, lookupTable, alookup]
      rcases h with h | h
      · rw [if_neg (fun h2 => h (Eq.symm h2)), if_neg (fun h2 => h (Eq.symm h2))]
      · by_cases hd : k = d2
        · rw [if_pos hd, if_pos hd]
          exact nlookup_updInner_other _ _ _ _ h
        · rw [if_neg hd, if_neg hd]
    · simp only [updOuter, lookupTable, alookup, if_neg hk]
      by_cases hd : k = d2
      · rw [if_pos hd, if_pos hd]
      · rw [if_neg hd, if_neg hd]
        exact ih

theorem nlookup_map_tick (cat : List CatalogTimer) (l : List (Nat × DailyState))
    (tid : Nat) :
    nlookup (l.map (fun q => (q.1, tickState cat q.1 q.2))) tid =
      (nlookup l tid).map (tickState cat tid) := by
  induction l with
  | nil => simp [nlookup]
  | cons q rest ih =>
    obtain ⟨k, s⟩ := q
    by_cases hk : k = tid
    · subst hk
      simp [nlookup]
    · simp only [List.map_cons, nlookup, if_neg hk]
      exact ih

theorem lookupTable_tickTable (cat : List CatalogTimer)
    (t : List (String × List (Nat × DailyState))) (d : String) (tid : Nat) :
    lookupTable (tickTable cat t) d tid =
      (lookupTable t d tid).map (tickState cat tid) := by
  induction t with
  | nil => simp [tickTable, lookupTable, alookup]
  | cons p rest ih =>
    obtain ⟨k, inner⟩ := p
    by_cases hk : k = d
    · subst hk
      simp only [tickTable, List.map_cons, lookupTable, alookup, if_pos rfl]
      exact nlookup_map_tick cat inner tid
    · simp only [tickTable, List.map_cons, lookupTable, alookup, if_neg hk]
      exact ih

theorem lookupState_getDaily {db : DB} {d : String} {tid : Nat} {s : DailyState}
    (tid2 : Nat) (d2 : String) (h : lookupState db d tid = some s) :
    lookupState (getDailyTimerState db tid2 d2).2 d tid = some s := by
  unfold getDailyTimerState
  show lookupTable (updOuter db.daily_states d2 tid2 emptyUpdate) d tid = some s
  by_cases hkey : d = d2 ∧ tid = tid2
  · obtain ⟨rfl, rfl⟩ := hkey
    rw [lookupTable_updOuter_same]
    rw [lookupState] at h
    rw [h]
    simp [applyUpdate_empty]
  · rw [lookupTable_updOuter_other]
    · exact h
    · by_cases hd : d = d2
      · right
        intro h2
        exact hkey ⟨hd, h2⟩
      · left
        exact hd

theorem lookupState_resyncFold (items : List TimerItem) (d2 : String) :
    ∀ (acc : List TimerItem × DB) {d : String} {tid : Nat} {s : DailyState},
      lookupState acc.2 d tid = some s →
      lookupState (items.foldl (resyncItem d2) acc).2 d tid = some s := by
  induction items with
  | nil =>
    intro acc d tid s h
    exact h
  | cons t rest ih =>
    intro acc d tid s h
    rw [List.foldl_cons]
    apply ih
    unfold resyncItem
    by_cases hr : t.isRunning
    · rw [if_pos hr]
      exact lookupState_getDaily t.id d2 h
    · rw [if_neg hr]
      exact h

/-! ### Claims C3, C4, C5: per-date membership and duplicate handling -/

theorem alookup_aset_other {β : Type} (t : List (String × β)) (d d2 : String)
    (v : β) (h : d2 ≠ d) : alookup (aset t d v) d2 = alookup t d2 := by
  induction t with
  | nil => simp [aset, alookup, Ne.symm h]
  | cons p rest ih =>
    obtain ⟨k, x⟩ := p
    by_cases hk : k = d
    · subst hk
      simp [aset, alookup, Ne.symm h]
    · simp only [aset, alookup, if_neg hk]
      by_cases hk2 : k = d2
      · rw [if_pos hk2, if_pos hk2]
      · rw [if_neg hk2, if_neg hk2]
        exact ih

theorem addTimerToDate_dtimers (db : DB) (d : String) (name : List Char)
    (ttype : String) (now : Nat) :
    (addTimerToDate db d name ttype now).2.daily_timers = db.daily_timers ∨
    ∃ v, (addTimerToDate db d name ttype now).2.daily_timers =
      aset db.daily_timers d v := by
  cases hs : sanitizeTimerName name with
  | error e =>
    left
    simp [addTimerToDate, hs]
  | ok sname =>
    simp only [addTimerToDate, hs]
    by_cases ht : ttype ≠ "stopwatch" ∧ ttype ≠ "countdown"
    · left
      rw [if_pos ht]
    · rw [if_neg ht]
      by_cases hdup : sname ∈ (getTimersForDate db d).map CatalogTimer.name
      · left
        rw [if_pos hdup]
      · right
        rw [if_neg hdup]
        exact ⟨_, rfl⟩

/-- Claim C3: `get_timers_for_date` returns exactly the membership list
stored for the queried date (the empty list when the date has no entry,
never falling back to another date), and `add_timer_to_date` on a
different date — whether it succeeds or rejects — does not change that
result. -/
theorem membership_per_date (db : DB) (d d2 : String) (name : List Char)
    (ttype : String) (now : Nat) (hne : d2 ≠ d) :
    (∀ ts, alookup db.daily_timers d2 = some ts → getTimersForDate db d2 = ts) ∧
    (alookup db.daily_timers d2 = none → getTimersForDate db d2 = []) ∧
    getTimersForDate (addTimerToDate db d name ttype now).2 d2 =
      getTimersForDate db d2 := by
  refine ⟨?_, ?_, ?_⟩
  · intro ts h
    simp [getTimersForDate, h]
  · intro h
    simp [getTimersForDate, h]
  · rcases addTimerToDate_dtimers db d name ttype now with h | ⟨v, h⟩
    · simp [getTimersForDate, h]
    · simp only [getTimersForDate, h]
      rw [alookup_aset_other _ _ _ _ hne]

/-- Witness for C3: with "Standup" stored on 2024-01-01, adding
"Standup" to 2024-01-02 leaves `get_timers_for_date("2024-01-01")`
unchanged. -/
theorem membership_per_date_witness :
    getTimersForDate
        (addTimerToDate dbW "2024-01-02" "Standup".toList "stopwatch" 60).2
        "2024-01-01" =
      getTimersForDate dbW "2024-01-01" :=
  (membership_per_date dbW "2024-01-02" "2024-01-01" "Standup".toList
    "stopwatch" 60 (by decide)).2.2

/-- Claim C4: for a name that sanitizes and a valid timer type,
`add_timer_to_date` raises ValidationError exactly when the sanitized
name is already present in that date's own membership list; in
particular the same name existing only on another date never causes the
rejection. -/
theorem addTimerToDate_dup_iff {db : DB} {d : String} {name sname : List Char}
    {ttype : String} {now : Nat}
    (hs : sanitizeTimerName name = .ok sname)
    (ht : ttype = "stopwatch" ∨ ttype = "countdown") :
    (∃ e, (addTimerToDate db d name ttype now).1 = .error e) ↔
      sname ∈ (getTimersForDate db d).map CatalogTimer.name := by
  have ht2 : ¬(ttype ≠ "stopwatch" ∧ ttype ≠ "countdown") := by
    rcases ht with h | h <;> simp [h]
  simp only [addTimerToDate, hs]
  rw [if_neg ht2]
  by_cases hdup : sname ∈ (getTimersForDate db d).map CatalogTimer.name
  · rw [if_pos hdup]
    exact ⟨fun _ => hdup, fun _ => ⟨_, rfl⟩⟩
  · rw [if_neg hdup]
    constructor
    · rintro ⟨e, he⟩
      cases he
    · intro h
      exact absurd h hdup

/-- Witness for C4: with "Standup" only on 2024-01-01, adding "Standup"
to 2024-01-02 is not rejected. -/
theorem addTimerToDate_dup_iff_witness :
    ¬ ∃ e, (addTimerToDate dbW "2024-01-02" "Standup".toList "stopwatch" 60).1 =
      .error e :=
  fun hex =>
    absurd ((@addTimerToDate_dup_iff dbW "2024-01-02" ("Standup".toList)
      ("Standup".toList) "stopwatch" 60 rfl (Or.inl rfl)).mp hex) (by decide)

/-- Claim C5: whenever `add_timer_to_date` raises (with a sanitized
name and valid type, the only raise left is the duplicate rejection),
the catalog and the id counter end up exactly as before the call — the
appended entry is filtered back out and the counter bump is undone.
The hypothesis that no existing catalog id equals `next_id` holds in
every store the API builds, since ids are assigned from `next_id`
before it is bumped. -/
theorem addTimerToDate_rollback {db : DB} {d : String} {name sname : List Char}
    {ttype : String} {now : Nat}
    (hs : sanitizeTimerName name = .ok sname)
    (ht : ttype = "stopwatch" ∨ ttype = "countdown")
    (hid : ∀ t ∈ db.timers, t.id ≠ db.next_id)
    (h : ∃ e, (addTimerToDate db d name ttype now).1 = .error e) :
    (addTimerToDate db d name ttype now).2.timers = db.timers ∧
    (addTimerToDate db d name ttype now).2.next_id = db.next_id := by
  have ht2 : ¬(ttype ≠ "stopwatch" ∧ ttype ≠ "countdown") := by
    rcases ht with h2 | h2 <;> simp [h2]
  have hdup : sname ∈ (getTimersForDate db d).map CatalogTimer.name :=
    (addTimerToDate_dup_iff hs ht).mp h
  simp only [addTimerToDate, hs]
  rw [if_neg ht2, if_pos hdup]
  constructor
  · show (db.timers ++
      [(⟨db.next_id, sname, ttype, 0, 0, false, now, none, some d⟩ :
        CatalogTimer)]).filter (fun t => t.id ≠ db.next_id) = db.timers
    rw [List.filter_append]
    have h1 : db.timers.filter (fun t => t.id ≠ db.next_id) = db.timers := by
      rw [List.filter_eq_self]
      intro t htl
      simpa using hid t htl
    have h2 : ([(⟨db.next_id, sname, ttype, 0, 0, false, now, none, some d⟩ :
        CatalogTimer)]).filter (fun t => t.id ≠ db.next_id) = [] := by
      simp
    rw [h1, h2, List.append_nil]
  · show db.next_id + 1 - 1 = db.next_id
    omega

/-- Witness for C5: the duplicate "Standup" on 2024-01-01 is rejected
and both the catalog and the id counter are restored. -/
theorem addTimerToDate_rollback_witness :
    (addTimerToDate dbW "2024-01-01" "Standup".toList "stopwatch" 70).2.timers =
      dbW.timers ∧
    (addTimerToDate dbW "2024-01-01" "Standup".toList "stopwatch" 70).2.next_id =
      dbW.next_id :=
  addTimerToDate_rollback rfl (Or.inl rfl) (by decide)
    ⟨"Timer with that name already exists on this date", by decide⟩

/-! ### Claim C6: idempotent session stop -/

/-- Counterexample for C6 as stated: session id 0 identifies no session
at all (the log is empty), yet `end_session` raises the ValidationError
of its positive-integer guard (database.py lines 858-859) instead of
returning a zero duration without error. -/
theorem endSession_zero_raises :
    emptyDB.sessions = [] ∧
    (endSession emptyDB 0 5).1 = .error "Session ID must be a positive integer" :=
  ⟨rfl, rfl⟩

theorem endSessionList_noop {sid : Int} {now : Nat} :
    ∀ {l : List Session},
      (∀ s ∈ l, ¬((s.id : Int) = sid ∧ s.is_active = true)) →
      endSessionList sid now l = (0, l) := by
  intro l
  induction l with
  | nil => intro _; rfl
  | cons s rest ih =>
    intro h
    unfold endSessionList
    rw [if_neg (h s (List.mem_cons_self s rest))]
    rw [ih (fun s2 hs2 => h s2 (List.mem_cons_of_mem s hs2))]

/-- Claim C6 (amended): for every positive session id that does not
identify an active session — an unknown id, or one whose session is
already inactive — `end_session` returns a duration of 0 and raises no
error, leaving the sessions collection unchanged.  (Amended from "every
session id": the guard at database.py lines 858-859 raises a
ValidationError for non-positive ids even though they identify no
session, as the counterexample shows.) -/
theorem endSession_noop {db : DB} {sid : Int} {now : Nat}
    (hpos : 1 ≤ sid)
    (hmiss : ∀ s ∈ db.sessions, ¬((s.id : Int) = sid ∧ s.is_active = true)) :
    endSession db sid now = (.ok 0, db) := by
  unfold endSession
  rw [if_neg (by omega)]
  rw [endSessionList_noop hmiss]

/-- Witness for the amended C6: a store with one active session (id 1);
ending the unknown session id 2 returns 0 and changes nothing. -/
theorem endSession_noop_witness :
    endSession mgrA2.db 2 200 = (.ok 0, mgrA2.db) :=
  endSession_noop (by decide) (by decide)

/-! ### Claim C9: session-id freshness and distinctness -/

theorem le_foldl_max (l : List Nat) : ∀ (a : Nat), a ≤ l.foldl max a := by
  induction l with
  | nil => intro a; exact Nat.le_refl a
  | cons x rest ih =>
    intro a
    exact le_trans (Nat.le_max_left a x) (ih (max a x))

theorem mem_le_foldl_max (l : List Nat) : ∀ (a : Nat) (x : Nat), x ∈ l →
    x ≤ l.foldl max a := by
  induction l with
  | nil =>
    intro a x hx
    cases hx
  | cons y rest ih =>
    intro a x hx
    rcases List.mem_cons.mp hx with rfl | hx2
    · exact le_trans (Nat.le_max_right a x) (le_foldl_max rest (max a x))
    · exact ih (max a y) x hx2

theorem lt_nextSessionId (l : List Session) : ∀ s ∈ l, s.id < nextSessionId l := by
  intro s hs
  unfold nextSessionId
  rw [if_neg (by cases l with | nil => cases hs | cons a rest => simp)]
  have hle : s.id ≤ (l.map Session.id).foldl max 0 :=
    mem_le_foldl_max _ 0 s.id (List.mem_map_of_mem Session.id hs)
  omega

theorem startSession_ok {db : DB} {tid : Int} {project : List Char} {now : Nat}
    {today : String} {sid : Nat} {db2 : DB}
    (h : startSession db tid project now today = (.ok sid, db2)) :
    sid = nextSessionId db.sessions ∧
    db2.sessions.map Session.id = db.sessions.map Session.id ++ [sid] := by
  unfold startSession at h
  by_cases htid : tid ≤ 0
  · rw [if_pos htid] at h
    have h1 := congrArg Prod.fst h
    simp at h1
  · rw [if_neg htid] at h
    cases hs : sanitizeProjectName project with
    | error e =>
      rw [hs] at h
      have h1 := congrArg Prod.fst h
      simp at h1
    | ok pname =>
      rw [hs] at h
      have h1 : (Except.ok (nextSessionId db.sessions) : Except String Nat) =
          .ok sid := congrArg Prod.fst h
      have h2 : ({ db with sessions := db.sessions ++
          [⟨nextSessionId db.sessions, tid.toNat, pname, today, now, none, 0,
            true⟩] } : DB) = db2 := congrArg Prod.snd h
      injection h1 with h1
      subst h1
      constructor
      · rfl
      · rw [← h2]
        simp

theorem endSessionList_map_id (sid : Int) (now : Nat) :
    ∀ (l : List Session),
      (endSessionList sid now l).2.map Session.id = l.map Session.id := by
  intro l
  induction l with
  | nil => rfl
  | cons s rest ih =>
    unfold endSessionList
    by_cases hc : (s.id : Int) = sid ∧ s.is_active
    · rw [if_pos hc]
      simp
    · rw [if_neg hc]
      simp only [List.map_cons]
      rw [ih]

theorem endSession_map_id (db : DB) (sid : Int) (now : Nat) :
    (endSession db sid now).2.sessions.map Session.id =
      db.sessions.map Session.id := by
  unfold endSession
  by_cases hsid : sid ≤ 0
  · rw [if_pos hsid]
  · rw [if_neg hsid]
    exact endSessionList_map_id sid now db.sessions

theorem nodup_ids_start (db : DB) (tid : Int) (project : List Char) (now : Nat)
    (today : String) (h : (db.sessions.map Session.id).Nodup) :
    ((startSession db tid project now today).2.sessions.map Session.id).Nodup := by
  cases hres : startSession db tid project now today with
  | mk r db2 =>
    cases r with
    | error e =>
      have h2 : db2 = db := by
        unfold startSession at hres
        by_cases htid : tid ≤ 0
        · rw [if_pos htid] at hres
          exact (congrArg Prod.snd hres).symm
        · rw [if_neg htid] at hres
          cases hs : sanitizeProjectName project with
          | error e2 =>
            rw [hs] at hres
            exact (congrArg Prod.snd hres).symm
          | ok pname =>
            rw [hs] at hres
            have h1 := congrArg Prod.fst hres
            simp at h1
      rw [h2]
      exact h
    | ok sid =>
      obtain ⟨hsid, hmap⟩ := startSession_ok hres
      rw [hmap]
      rw [List.nodup_append]
      refine ⟨h, List.nodup_singleton sid, ?_⟩
      intro x hx hx2
      simp only [List.mem_singleton] at hx2
      subst hx2
      obtain ⟨s, hsmem, hsid2⟩ := List.mem_map.mp hx
      have := lt_nextSessionId db.sessions s hsmem
      omega

/-- Claim C9: in every store reachable by `start_session`,
`end_session`, initialization-time archival and `reset_all_data`, the
live session ids are pairwise distinct, and every successful
`start_session` returns `max(existing ids) + 1` (1 on an empty log),
which is strictly greater than every id present before the call. -/
theorem session_ids_invariant {db : DB} (h : SessReachable db) :
    (db.sessions.map Session.id).Nodup ∧
    ∀ (tid : Int) (project : List Char) (now : Nat) (today : String)
      (sid : Nat) (db2 : DB),
      startSession db tid project now today = (.ok sid, db2) →
        (∀ s ∈ db.sessions, s.id < sid) ∧ sid = nextSessionId db.sessions := by
  constructor
  · induction h with
    | init db h0 => simp [h0]
    | start db tid project now today hr ih =>
      exact nodup_ids_start db tid project now today ih
    | stop db sid now hr ih =>
      rw [endSession_map_id]
      exact ih
    | archive db cutoff hr ih =>
      unfold checkAndArchiveOldData
      exact ih.sublist (List.Sublist.map Session.id (List.filter_sublist _))
    | reset db hr ih => simp [resetAllData]
  · intro tid project now today sid db2 hstart
    obtain ⟨hsid, _⟩ := startSession_ok hstart
    subst hsid
    exact ⟨lt_nextSessionId db.sessions, rfl⟩

/-- Witness for C9: after one `start_session` on a fresh store the ids
are distinct, and a second `start_session` returns id 2, which is
`max(existing) + 1` for the store holding session 1. -/
theorem session_ids_invariant_witness :
    ((dbS.sessions.map Session.id).Nodup ∧ 2 = nextSessionId dbS.sessions) :=
  have hreach : SessReachable dbS :=
    SessReachable.start emptyDB 1 "Alpha".toList 10 "2024-01-01"
      (SessReachable.init emptyDB rfl)
  have hres := session_ids_invariant hreach
  ⟨hres.1,
   (hres.2 1 "Beta".toList 20 "2024-01-01" 2
      (startSession dbS 1 "Beta".toList 20 "2024-01-01").2 (by decide)).2⟩

/-! ### Structure of one Scheduler tick -/

theorem resyncItem_db_timers (d2 : String) (acc : List TimerItem × DB)
    (t : TimerItem) : ((resyncItem d2 acc t).2).timers = acc.2.timers := by
  unfold resyncItem
  by_cases hr : t.isRunning
  · rw [if_pos hr]
    rfl
  · rw [if_neg hr]

theorem resyncFold_db_timers (items : List TimerItem) (d2 : String) :
    ∀ acc : List TimerItem × DB,
      ((items.foldl (resyncItem d2) acc).2).timers = acc.2.timers := by
  induction items with
  | nil => intro acc; rfl
  | cons t rest ih =>
    intro acc
    rw [List.foldl_cons]
    rw [ih (resyncItem d2 acc t)]
    exact resyncItem_db_timers d2 acc t

theorem updateRunningTimers_db_timers (m : Manager) :
    (updateRunningTimers m).db.timers = m.db.timers := by
  unfold updateRunningTimers
  exact resyncFold_db_timers m.timers m.currentDateStr ([],
    { m.db with daily_states := tickTable m.db.timers m.db.daily_states })

theorem updateRunningTimers_run (m : Manager) :
    (updateRunningTimers m).runningTimerIds = m.runningTimerIds := rfl

theorem checkDayRollover_db (m : Manager) (today : String) :
    (checkDayRollover m today).db = m.db := by
  unfold checkDayRollover
  split <;> rfl

theorem checkDayRollover_run (m : Manager) (today : String) :
    (checkDayRollover m today).runningTimerIds = m.runningTimerIds := by
  unfold checkDayRollover
  split <;> rfl

theorem consolidated_db (m : Manager) (today : String) :
    (consolidatedTimerUpdate m today).db =
      (if m.runningTimerIds ≠ [] then
        updateRunningTimers { m with timerUpdateCounter := m.timerUpdateCounter + 1 }
       else m).db := by
  unfold consolidatedTimerUpdate
  dsimp only
  by_cases hgate : m.runningTimerIds ≠ []
  · rw [if_pos hgate, if_pos hgate]
    split <;> split <;> simp [checkDayRollover_db]
  · rw [if_neg hgate, if_neg hgate]
    split <;> split <;> simp [checkDayRollover_db]

theorem consolidated_run (m : Manager) (today : String) :
    (consolidatedTimerUpdate m today).runningTimerIds = m.runningTimerIds := by
  unfold consolidatedTimerUpdate
  dsimp only
  by_cases hgate : m.runningTimerIds ≠ []
  · rw [if_pos hgate]
    split <;> split <;>
      simp [checkDayRollover_run, updateRunningTimers_run]
  · rw [if_neg hgate]
    split <;> split <;> simp [checkDayRollover_run]

theorem consolidated_db_timers (m : Manager) (today : String) :
    (consolidatedTimerUpdate m today).db.timers = m.db.timers := by
  rw [consolidated_db]
  by_cases hgate : m.runningTimerIds ≠ []
  · rw [if_pos hgate]
    exact updateRunningTimers_db_timers _
  · rw [if_neg hgate]

theorem lookupState_tick {m : Manager} {d : String} {tid : Nat} {s : DailyState}
    (today : String) (hgate : m.runningTimerIds ≠ [])
    (h : lookupState m.db d tid = some s) :
    lookupState (consolidatedTimerUpdate m today).db d tid =
      some (tickState m.db.timers tid s) := by
  rw [consolidated_db, if_pos hgate]
  unfold updateRunningTimers
  apply lookupState_resyncFold
  show lookupTable (tickTable m.db.timers m.db.daily_states) d tid = _
  rw [lookupTable_tickTable]
  rw [lookupState] at h
  rw [h]
  rfl

theorem lookupState_tick_nogate {m : Manager} (today : String)
    (hgate : ¬(m.runningTimerIds ≠ [])) (d : String) (tid : Nat) :
    lookupState (consolidatedTimerUpdate m today).db d tid =
      lookupState m.db d tid := by
  rw [consolidated_db, if_neg hgate]

theorem ticks_succ (m : Manager) (today : String) (n : Nat) :
    ticks m today (n + 1) = ticks (consolidatedTimerUpdate m today) today n := rfl

theorem ticks_run (today : String) : ∀ (n : Nat) (m : Manager),
    (ticks m today n).runningTimerIds = m.runningTimerIds := by
  intro n
  induction n with
  | zero => intro m; rfl
  | succ k ih =>
    intro m
    rw [ticks_succ, ih, consolidated_run]

theorem ticks_db_timers (today : String) : ∀ (n : Nat) (m : Manager),
    (ticks m today n).db.timers = m.db.timers := by
  intro n
  induction n with
  | zero => intro m; rfl
  | succ k ih =>
    intro m
    rw [ticks_succ, ih, consolidated_db_timers]

theorem stopped_ticks (today : String) : ∀ (n : Nat) {m : Manager} {d : String}
    {tid : Nat} {s : DailyState},
    lookupState m.db d tid = some s → s.is_running = false →
    lookupState (ticks m today n).db d tid = some s := by
  intro n
  induction n with
  | zero =>
    intro m d tid s h _
    exact h
  | succ k ih =>
    intro m d tid s h hrun
    rw [ticks_succ]
    by_cases hgate : m.runningTimerIds ≠ []
    · apply ih
      · rw [lookupState_tick today hgate h]
        unfold tickState
        rw [hrun]
        simp
      · exact hrun
    · apply ih
      · rw [lookupState_tick_nogate today hgate]
        exact h
      · exact hrun

/-! ### Claim C1: the tick is gated on the viewed date's running set -/

/-- Claim C1 at the failing input: after the stopwatch on 2024-01-01 is
started and the viewed date switches to 2024-01-02, the daily-state
table still holds a timer with `is_running = true`, but the runtime's
running-id set — rebuilt from the viewed date only — is empty, so a
Scheduler tick advances nothing: `elapsed_seconds` stays 0 where the
claim requires `+1`. -/
theorem tick_skips_running_other_date :
    (lookupState mgrA3.db "2024-01-01" 1).map DailyState.is_running = some true ∧
    (lookupState mgrA3.db "2024-01-01" 1).map DailyState.elapsed_seconds = some 0 ∧
    mgrA3.runningTimerIds = [] ∧
    (lookupState mgrA4.db "2024-01-01" 1).map DailyState.elapsed_seconds = some 0 ∧
    (lookupState mgrA4.db "2024-01-01" 1).map DailyState.is_running = some true :=
  ⟨rfl, rfl, rfl, rfl, rfl⟩

/-! ### Claim C2: countdown semantics under the tick -/

/-- Counterexample for C2 as stated: a countdown with
`countdown_seconds = 10` is running (on 2024-01-01) while the viewed
date is 2024-01-02; the claim predicts `max(0, 10 - 1) = 9` after one
tick, but the tick is gated on the empty running-id set and the value
stays 10. -/
theorem countdown_skipped_on_other_date :
    (lookupState mgrB4.db "2024-01-01" 1).map DailyState.is_running = some true ∧
    (lookupState mgrB4.db "2024-01-01" 1).map DailyState.countdown_seconds =
      some 10 ∧
    mgrB4.runningTimerIds = [] ∧
    (lookupState mgrB5.db "2024-01-01" 1).map DailyState.countdown_seconds =
      some 10 :=
  ⟨rfl, rfl, rfl, rfl⟩

/-- Claim C2 (amended): for every countdown timer that is in the
catalog and running with `countdown_seconds = c` on any date, provided
the runtime's running-timer set is nonempty (as it is when a timer of
the currently viewed date is running; the set is preserved by ticks),
after `n` Scheduler ticks its record is exactly: `countdown_seconds =
c - n` (truncated subtraction, i.e. `max(0, c - n)`, never below 0),
`is_running = (n ≤ c)` — so the tick after the value reaches 0 forces
`is_running` to false as a terminal transition, no error is reported,
and no further decrement occurs — with `elapsed_seconds`,
`last_started` and the stored initial countdown untouched. -/
theorem countdown_tick_semantics (today : String) :
    ∀ (n : Nat) {m : Manager} {d : String} {tid : Nat} {td : CatalogTimer}
      {s : DailyState},
    m.runningTimerIds ≠ [] →
    getTimer m.db.timers tid = some td →
    td.type = "countdown" →
    lookupState m.db d tid = some s →
    s.is_running = true →
    lookupState (ticks m today n).db d tid =
      some ⟨s.elapsed_seconds, s.countdown_seconds - n,
            decide (n ≤ s.countdown_seconds), s.last_started,
            s.initial_countdown_seconds⟩ := by
  intro n
  induction n with
  | zero =>
    intro m d tid td s hgate hcat htype hst hrun
    show lookupState m.db d tid = _
    rw [hst]
    cases s with
    | mk e c r ls ini =>
      have hr : r = true := hrun
      subst hr
      simp
  | succ k ih =>
    intro m d tid td s hgate hcat htype hst hrun
    rw [ticks_succ]
    have hnext : lookupState (consolidatedTimerUpdate m today).db d tid =
        some (tickState m.db.timers tid s) := lookupState_tick today hgate hst
    have hgate2 : (consolidatedTimerUpdate m today).runningTimerIds ≠ [] := by
      rw [consolidated_run]
      exact hgate
    have hcat2 : getTimer (consolidatedTimerUpdate m today).db.timers tid =
        some td := by
      rw [consolidated_db_timers]
      exact hcat
    cases s with
    | mk e c r ls ini =>
      have hr : r = true := hrun
      subst hr
      by_cases hc : c > 0
      · have htick : tickState m.db.timers tid ⟨e, c, true, ls, ini⟩ =
            ⟨e, c - 1, true, ls, ini⟩ := by
          simp [tickState, hcat, htype, hc]
        rw [htick] at hnext
        have hres := ih hgate2 hcat2 htype hnext rfl
        rw [hres]
        have h1 : c - 1 - k = c - (k + 1) := by omega
        have h2 : decide (k ≤ c - 1) = decide (k + 1 ≤ c) := by
          simp only [decide_eq_decide]
          omega
        rw [h1, h2]
      · have hc0 : c = 0 := by omega
        subst hc0
        have htick : tickState m.db.timers tid ⟨e, 0, true, ls, ini⟩ =
            ⟨e, 0, false, ls, ini⟩ := by
          simp [tickState, hcat, htype]
        rw [htick] at hnext
        have hres := stopped_ticks today k hnext rfl
        rw [hres]
        have h1 : (0 : Nat) = 0 - (k + 1) := by omega
        have h2 : false = decide (k + 1 ≤ 0) := by
          simp
        rw [← h1, ← h2]

/-- Witness for the amended C2: the countdown configured to 10 and
started on the viewed date 2024-01-01; after 12 ticks its record shows
`countdown_seconds = 0` (never negative) and `is_running = false`,
with elapsed time and initial countdown untouched. -/
theorem countdown_tick_semantics_witness :
    lookupState (ticks mgrB3 "2024-01-01" 12).db "2024-01-01" 1 =
      some ⟨0, 0, false, some 100, some 10⟩ :=
  @countdown_tick_semantics "2024-01-01" 12 mgrB3 "2024-01-01" 1
    ⟨1, "Rest".toList, "countdown", 0, 0, false, 100, none, some "2024-01-01"⟩
    ⟨0, 10, true, some 100, some 10⟩ (by decide) (by decide) rfl (by decide) rfl

/-! ### Claim C10: adjustTime only moves the two counters -/

/-- Claim C10: for a timer present on the currently viewed date (and
whose in-memory counters mirror its daily-state record, as `_load_timers`
and the resync establish), `adjustTime` rewrites only the
`elapsed_seconds` and `countdown_seconds` of that timer's record for
the viewed date — the type-relevant counter moves by `delta` clamped at
0 (`Int.toNat` is the `max(0, _)`), the other is written back
unchanged — while `is_running`, `last_started` and the stored initial
countdown of that record, every other `(date, timer)` record, the timer
catalog, the membership lists, and the sessions log are unchanged. -/
theorem adjustTime_frame {m : Manager} {tid : Nat} {t : TimerItem}
    {s : DailyState} (delta : Int)
    (hitem : getTimerById m.timers tid = some t)
    (hst : lookupState m.db m.currentDateStr tid = some s)
    (he : s.elapsed_seconds = t.elapsedSeconds)
    (hc : s.countdown_seconds = t.countdownSeconds) :
    lookupState (adjustTimeM m tid delta).db m.currentDateStr tid =
      some ⟨(if t.type = "countdown" then s.elapsed_seconds
             else ((s.elapsed_seconds : Int) + delta).toNat),
            (if t.type = "countdown"
             then ((s.countdown_seconds : Int) + delta).toNat
             else s.countdown_seconds),
            s.is_running, s.last_started, s.initial_countdown_seconds⟩ ∧
    (∀ (d2 : String) (tid2 : Nat), d2 ≠ m.currentDateStr ∨ tid2 ≠ tid →
       lookupState (adjustTimeM m tid delta).db d2 tid2 =
         lookupState m.db d2 tid2) ∧
    (adjustTimeM m tid delta).db.timers = m.db.timers ∧
    (adjustTimeM m tid delta).db.daily_timers = m.db.daily_timers ∧
    (adjustTimeM m tid delta).db.sessions = m.db.sessions := by
  have hdb : (adjustTimeM m tid delta).db =
      updateDailyTimerState m.db tid m.currentDateStr
        ⟨some (if t.type = "countdown" then t.elapsedSeconds
               else ((t.elapsedSeconds : Int) + delta).toNat),
         some (if t.type = "countdown"
               then ((t.countdownSeconds : Int) + delta).toNat
               else t.countdownSeconds),
         none, none, none⟩ := by
    unfold adjustTimeM
    rw [hitem]
    dsimp only
    by_cases hty : t.type = "countdown"
    · rw [if_pos hty, if_pos hty, if_pos hty]
    · rw [if_neg hty, if_neg hty, if_neg hty]
  refine ⟨?_, ?_, ?_, ?_, ?_⟩
  · rw [hdb]
    show lookupTable (updOuter m.db.daily_states m.currentDateStr tid _)
      m.currentDateStr tid = _
    rw [lookupTable_updOuter_same]
    rw [lookupState] at hst
    rw [hst]
    cases s with
    | mk e c r ls ini =>
      simp only [Option.getD_some] at he hc ⊢
      rw [he, hc]
      rfl
  · intro d2 tid2 hne
    rw [hdb]
    show lookupTable (updOuter m.db.daily_states m.currentDateStr tid _) d2 tid2 =
      lookupTable m.db.daily_states d2 tid2
    exact lookupTable_updOuter_other _ _ _ _ _ _ hne
  · rw [hdb]
    rfl
  · rw [hdb]
    rfl
  · rw [hdb]
    rfl

/-- Witness for C10: adjusting the running stopwatch on 2024-01-01 by
-5 seconds clamps its elapsed time at 0, keeps `is_running` and
`last_started`, leaves an unrelated record untouched, and keeps the
sessions log. -/
theorem adjustTime_frame_witness :
    lookupState (adjustTimeM mgrA2 1 (-5)).db "2024-01-01" 1 =
      some ⟨0, 0, true, some 100, none⟩ ∧
    lookupState (adjustTimeM mgrA2 1 (-5)).db "2024-01-02" 7 =
      lookupState mgrA2.db "2024-01-02" 7 ∧
    (adjustTimeM mgrA2 1 (-5)).db.sessions = mgrA2.db.sessions := by
  have h := @adjustTime_frame mgrA2 1
    ⟨1, "Work".toList, "stopwatch", 0, 0, 0, true, none⟩
    ⟨0, 0, true, some 100, none⟩ (-5) (by decide) (by decide) rfl rfl
  exact ⟨h.1, h.2.1 "2024-01-02" 7 (Or.inr (by decide)), h.2.2.2.2⟩

end FatherTime
